import Mathlib

/-!
Verification of the value-coercion engine (`Cast`) and color model (`Color`)
of the block-extension repository (source file `src/unnamed/part_001`).

JavaScript numbers are modelled exactly as rationals together with the three
special values `+Infinity`, `-Infinity` and `NaN` (every finite IEEE double is
a rational with a terminating decimal expansion, so this domain contains the
concrete values the source manipulates; double rounding is idealised away).
`-0` is identified with `0`, which is observationally sound for every
operation modelled here (`-0 === 0` in JS and `String(-0) = "0"`).
Strings are modelled as their character sequences; `toLowerCase` is modelled
by the ASCII case map and string order by code-point lexicographic order.
-/

namespace JsVal

/-- A JavaScript number: a finite value (exact rational), an infinity, or NaN. -/
inductive JNum where
  | rat (q : ℚ)
  | posInf
  | negInf
  | nan
deriving DecidableEq

/-- Whether a JS number is NaN (the `isNaN` test of the source). -/
def JNum.isNaN : JNum → Bool
  | .nan => true
  | _ => false

/-- JS strict equality `===` restricted to numbers: NaN equals nothing. -/
def JNum.seq : JNum → JNum → Bool
  | .rat a, .rat b => decide (a = b)
  | .posInf, .posInf => true
  | .negInf, .negInf => true
  | _, _ => false

/-- JS subtraction on numbers (`n1 - n2`), with IEEE infinity/NaN rules. -/
def JNum.sub : JNum → JNum → JNum
  | .nan, _ => .nan
  | _, .nan => .nan
  | .rat a, .rat b => .rat (a - b)
  | .rat _, .posInf => .negInf
  | .rat _, .negInf => .posInf
  | .posInf, .rat _ => .posInf
  | .posInf, .negInf => .posInf
  | .posInf, .posInf => .nan
  | .negInf, .rat _ => .negInf
  | .negInf, .posInf => .negInf
  | .negInf, .negInf => .nan

/-- The sign of a JS number as an integer (NaN is assigned 0). -/
def JNum.sign : JNum → ℤ
  | .rat q => if q < 0 then -1 else if 0 < q then 1 else 0
  | .posInf => 1
  | .negInf => -1
  | .nan => 0

/-- JS `<` on numbers: any comparison involving NaN is false. -/
def JNum.ltb : JNum → JNum → Bool
  | .nan, _ => false
  | _, .nan => false
  | .rat a, .rat b => decide (a < b)
  | .rat _, .posInf => true
  | .rat _, .negInf => false
  | .posInf, _ => false
  | .negInf, .negInf => false
  | .negInf, _ => true

/-- JS `<=` on numbers: any comparison involving NaN is false. -/
def JNum.leb : JNum → JNum → Bool
  | .nan, _ => false
  | _, .nan => false
  | .rat a, .rat b => decide (a ≤ b)
  | .rat _, .posInf => true
  | .rat _, .negInf => false
  | .posInf, .posInf => true
  | .posInf, _ => false
  | .negInf, _ => true

/-- `Math.floor` on a JS number (identity on infinities and NaN). -/
def JNum.floor : JNum → JNum
  | .rat q => .rat ((⌊q⌋ : ℤ) : ℚ)
  | n => n

/-- A JS dynamic value as it arrives from the block-argument system:
number, boolean, string, `null` or `undefined`. -/
inductive Value where
  | num (n : JNum)
  | bool (b : Bool)
  | str (s : String)
  | null
  | undef
deriving DecidableEq

/-- The `typeof v === 'number'` test. -/
def Value.isNumber : Value → Bool
  | .num _ => true
  | _ => false

/-- The character class `\d` (an ASCII decimal digit). -/
def isDig (c : Char) : Bool := 48 ≤ c.toNat && c.toNat ≤ 57

/-- Numeric value of an ASCII digit character. -/
def digitVal (c : Char) : ℕ := c.toNat - 48

/-- The character class `[a-f\d]` of the source's hex regexes, case-insensitive. -/
def isHexDig (c : Char) : Bool :=
  isDig c || (97 ≤ c.toNat && c.toNat ≤ 102) || (65 ≤ c.toNat && c.toNat ≤ 70)

/-- Numeric value of a hex digit character (either case). -/
def hexDigVal (c : Char) : ℕ :=
  if isDig c then digitVal c
  else if 97 ≤ c.toNat && c.toNat ≤ 102 then c.toNat - 87
  else c.toNat - 55

/-- ECMAScript whitespace and line terminators (the characters removed by
`trim` and skipped by `Number`/`parseInt`). -/
def isJsSpace (c : Char) : Bool :=
  c.toNat = 32 || c.toNat = 9 || c.toNat = 10 || c.toNat = 13 ||
  c.toNat = 11 || c.toNat = 12 || c.toNat = 160 || c.toNat = 65279 ||
  c.toNat = 8232 || c.toNat = 8233 || c.toNat = 5760 ||
  (8192 ≤ c.toNat && c.toNat ≤ 8202) || c.toNat = 8239 ||
  c.toNat = 8287 || c.toNat = 12288

/-- JS `String.prototype.trim`: drop whitespace from both ends. -/
def jsTrimList (cs : List Char) : List Char :=
  ((cs.dropWhile isJsSpace).reverse.dropWhile isJsSpace).reverse

/-- JS string order `<` (lexicographic by code point). -/
def lexLt : List Char → List Char → Bool
  | [], [] => false
  | [], _ :: _ => true
  | _ :: _, [] => false
  | a :: as, b :: bs => decide (a < b) || (decide (a = b) && lexLt as bs)

/-- Value of a big-endian digit list in the given base. -/
def ofDigitsBE (base : ℕ) (ds : List ℕ) : ℕ := ds.foldl (fun a d => base * a + d) 0

/-- Value of a big-endian list of ASCII digit characters. -/
def charsVal (cs : List Char) : ℕ := ofDigitsBE 10 (cs.map digitVal)

/-- Combine integer part, fraction part and exponent of a decimal literal
into its exact rational value. -/
def decCombine (ip fp : List Char) (ex : ℤ) : ℚ :=
  let base : ℚ :=
    (ofDigitsBE 10 (ip.map digitVal) : ℕ) +
      (ofDigitsBE 10 (fp.map digitVal) : ℕ) / (10 : ℚ) ^ fp.length
  if 0 ≤ ex then base * (10 : ℚ) ^ ex.toNat else base / (10 : ℚ) ^ (-ex).toNat

/-- Parse the exponent tail of a decimal literal (after the `e`/`E`),
requiring full consumption: an optional sign then one or more digits. -/
def parseExpTail (cs : List Char) : Option ℤ :=
  let p : ℤ × List Char :=
    match cs with
    | '+' :: rest => (1, rest)
    | '-' :: rest => (-1, rest)
    | _ => (1, cs)
  if p.2 ≠ [] ∧ p.2.all isDig then
    some (p.1 * (ofDigitsBE 10 (p.2.map digitVal) : ℕ))
  else none

/-- Parse digits, an optional `.` with digits, and an optional exponent,
requiring full consumption (ECMAScript `StrUnsignedDecimalLiteral`). -/
def parseDecBody (cs : List Char) : Option ℚ :=
  let ip := cs.takeWhile isDig
  let r1 := cs.dropWhile isDig
  match r1 with
  | '.' :: r2 =>
      let fp := r2.takeWhile isDig
      let r3 := r2.dropWhile isDig
      if ip = [] ∧ fp = [] then none
      else
        match r3 with
        | [] => some (decCombine ip fp 0)
        | c :: rest =>
            if c = 'e' ∨ c = 'E' then (parseExpTail rest).map (decCombine ip fp)
            else none
  | [] => if ip = [] then none else some (decCombine ip [] 0)
  | c :: rest =>
      if ip ≠ [] ∧ (c = 'e' ∨ c = 'E') then (parseExpTail rest).map (decCombine ip [])
      else none

/-- Parse an optionally signed `StrDecimalLiteral` (`Infinity` or a decimal),
requiring full consumption. -/
def parseSignedDec (cs : List Char) : JNum :=
  let p : ℚ × List Char :=
    match cs with
    | '-' :: rest => (-1, rest)
    | '+' :: rest => (1, rest)
    | _ => (1, cs)
  if p.2 = "Infinity".data then (if p.1 < 0 then .negInf else .posInf)
  else
    match parseDecBody p.2 with
    | some q => .rat (p.1 * q)
    | none => .nan

/-- ECMAScript `StringToNumber`: trim, empty means 0, then a fully consumed
numeric literal (`0x`/`0o`/`0b` forms are unsigned); otherwise NaN. -/
def strToNum (s : String) : JNum :=
  let cs := jsTrimList s.data
  match cs with
  | [] => .rat 0
  | '0' :: x :: rest =>
    if x = 'x' ∨ x = 'X' then
      if rest ≠ [] ∧ rest.all isHexDig then .rat (ofDigitsBE 16 (rest.map hexDigVal) : ℕ)
      else .nan
    else if x = 'o' ∨ x = 'O' then
      if rest ≠ [] ∧ rest.all (fun c => 48 ≤ c.toNat && c.toNat ≤ 55) then
        .rat (ofDigitsBE 8 (rest.map digitVal) : ℕ)
      else .nan
    else if x = 'b' ∨ x = 'B' then
      if rest ≠ [] ∧ rest.all (fun c => 48 ≤ c.toNat && c.toNat ≤ 49) then
        .rat (ofDigitsBE 2 (rest.map digitVal) : ℕ)
      else .nan
    else parseSignedDec cs
  | _ => parseSignedDec cs

/-- JS `Number(value)` coercion. -/
def jsToNumber : Value → JNum
  | .num n => n
  | .bool b => .rat (if b then 1 else 0)
  | .str s => strToNum s
  | .null => .rat 0
  | .undef => .nan

/-- Little-endian base-10 digits, by fuel (kernel-computable variant of
`Nat.digits 10`; the fuel `n` itself always suffices).  Defined with a bare
`Nat.rec` so that reduction is lazy in the fuel. -/
def digitsFuel (fuel : ℕ) : ℕ → List ℕ :=
  Nat.rec (motive := fun _ => ℕ → List ℕ) (fun _ => [])
    (fun _ ih n => if n = 0 then [] else n % 10 :: ih (n / 10)) fuel

/-- Little-endian base-10 digits of a natural number. -/
def natDigits10 (n : ℕ) : List ℕ := digitsFuel n n

/-- Big-endian decimal digit characters of a natural number. -/
def digitsBE (n : ℕ) : List Char := (natDigits10 n).reverse.map Nat.digitChar

/-- Multiplicity of `p` in `n`, by fuel (bare `Nat.rec`, lazy in the fuel). -/
def multFuel (p : ℕ) (fuel : ℕ) : ℕ → ℕ :=
  Nat.rec (motive := fun _ => ℕ → ℕ) (fun _ => 0)
    (fun _ ih n => if 2 ≤ p ∧ n ≠ 0 ∧ n % p = 0 then 1 + ih (n / p) else 0) fuel

/-- Multiplicity of `p` in `n` (how many times `p` divides `n`). -/
def mult (p n : ℕ) : ℕ := multFuel p n n

/-- Smallest decimal exponent scaling `q` to an integer (when the denominator
is of the form `2^a * 5^b`, which holds for every IEEE double). -/
def expo (q : ℚ) : ℕ := max (mult 2 q.den) (mult 5 q.den)

/-- Numerator of `q` scaled by `10 ^ expo q` (the unstripped mantissa). -/
def mant (q : ℚ) : ℕ := (q * (10 : ℚ) ^ expo q).num.toNat

/-- Number of trailing zero digits of the unstripped mantissa. -/
def zer (q : ℚ) : ℕ := mult 10 (mant q)

/-- Stripped mantissa: the shortest digit string `s` with `q = s * 10^(n-k)`. -/
def sman (q : ℚ) : ℕ := mant q / 10 ^ zer q

/-- Number of digits of the stripped mantissa (`k` of ECMAScript 6.1.6.1.20). -/
def kdig (q : ℚ) : ℕ := (natDigits10 (sman q)).length

/-- Decimal-point position (`n` of ECMAScript 6.1.6.1.20): `q = sman * 10^(npos-kdig)`. -/
def npos (q : ℚ) : ℤ := (kdig q : ℤ) + zer q - expo q

/-- Mantissa rendered with a decimal point after the first digit (used by the
exponential forms). -/
def mantissaChars (m : ℕ) : List Char :=
  match digitsBE m with
  | [] => ['0']
  | d :: ds => d :: (if ds.isEmpty then [] else '.' :: ds)

/-- ECMAScript `Number::toString` (radix 10) of a positive rational with a
terminating decimal expansion: positional notation for `-6 < n <= 21`,
exponential notation otherwise.  A rational whose denominator is not of the
form `2^a * 5^b` has no finite decimal expansion (such a value is not an IEEE
double); those fall back to `"0"`. -/
def posRatToDec (q : ℚ) : List Char :=
  if (q * (10 : ℚ) ^ expo q).den = 1 then
    let m := sman q
    let k := kdig q
    let n := npos q
    if (k : ℤ) ≤ n ∧ n ≤ 21 then digitsBE m ++ List.replicate (n - k).toNat '0'
    else if 0 < n ∧ n ≤ 21 then
      (digitsBE m).take n.toNat ++ '.' :: (digitsBE m).drop n.toNat
    else if -6 < n ∧ n ≤ 0 then
      '0' :: '.' :: (List.replicate (-n).toNat '0' ++ digitsBE m)
    else if 21 < n then mantissaChars m ++ 'e' :: '+' :: digitsBE (n - 1).toNat
    else mantissaChars m ++ 'e' :: '-' :: digitsBE (1 - n).toNat
  else ['0']

/-- JS `String` applied to a number (ECMAScript `Number::toString`, radix 10). -/
def jsNumToString : JNum → List Char
  | .nan => ['N', 'a', 'N']
  | .posInf => "Infinity".data
  | .negInf => '-' :: "Infinity".data
  | .rat q => if q = 0 then ['0'] else if q < 0 then '-' :: posRatToDec (-q) else posRatToDec q

/-- JS `String(value)` coercion. -/
def jsToString : Value → List Char
  | .num n => jsNumToString n
  | .bool b => if b then "true".data else "false".data
  | .str s => s.data
  | .null => "null".data
  | .undef => "undefined".data

/-- Digit test for `parseInt` in the given radix (only 10 and 16 occur). -/
def isRadixDig (r : ℕ) (c : Char) : Bool := if r = 16 then isHexDig c else isDig c

/-- Digit value for `parseInt` (valid for every radix up to 16). -/
def radDigVal (c : Char) : ℕ := if isDig c then digitVal c else hexDigVal c

/-- JS `parseInt(s, radix)`: skip leading whitespace, optional sign, strip an
optional `0x` prefix when the radix is 16, then take the maximal digit prefix;
NaN when there is no digit. -/
def jsParseInt (radix : ℕ) (s : List Char) : JNum :=
  let cs := s.dropWhile isJsSpace
  let sgn : ℚ := if cs.head? = some '-' then -1 else 1
  let cs1 := if cs.head? = some '-' ∨ cs.head? = some '+' then cs.tail else cs
  let cs2 :=
    if radix = 16 then
      match cs1 with
      | '0' :: x :: rest => if x = 'x' ∨ x = 'X' then rest else cs1
      | _ => cs1
    else cs1
  let digs := cs2.takeWhile (isRadixDig radix)
  if digs = [] then .nan
  else .rat (sgn * (ofDigitsBE radix (digs.map radDigVal) : ℕ))

/-- Truncation toward zero of a rational (JS `ToInt32`'s first step, and the
semantics of JS `%` on finite numbers). -/
def ratTrunc (q : ℚ) : ℤ := if 0 ≤ q then ⌊q⌋ else ⌈q⌉

/-- JS `ToUint32` of a finite number: truncate, then wrap modulo `2^32`. -/
def toUint32 (q : ℚ) : ℕ := (ratTrunc q % (4294967296 : ℤ)).toNat

/-- Reinterpret a 32-bit unsigned value as a signed 32-bit integer. -/
def int32OfUint (u : ℕ) : ℤ :=
  if u < 2147483648 then (u : ℤ) else (u : ℤ) - 4294967296

/-- JS `ToInt32` of a finite number. -/
def toInt32 (q : ℚ) : ℤ := int32OfUint (toUint32 q)

/-- JS `x << k` on a finite number: `ToInt32`, shift, wrap back to int32. -/
def jsShl (q : ℚ) (k : ℕ) : ℤ := int32OfUint (toUint32 q * 2 ^ k % 4294967296)

/-- JS `x >> k` on a finite number: `ToInt32` then arithmetic shift right
(floor division by `2^k`; `Int` division here is Euclidean, which agrees
with floor division for a positive divisor). -/
def jsShr (q : ℚ) (k : ℕ) : ℤ := toInt32 q / 2 ^ k

/-- JS `x & y` on 32-bit integers: bitwise AND of the two's-complement
patterns, reinterpreted as int32. -/
def jsAnd (x y : ℤ) : ℤ := int32OfUint ((x % 4294967296).toNat &&& (y % 4294967296).toNat)

/-- JS `a % b` on finite numbers (`fmod`: remainder with the dividend's sign). -/
def jsRatMod (a b : ℚ) : ℚ := a - b * ((ratTrunc (a / b) : ℤ) : ℚ)

end JsVal

namespace Color

open JsVal

/-- An RGB color object `{r, g, b}`.  The fields are JS numbers (the source
does not enforce integrality; `mixRgb` produces fractional channels). -/
structure RGB where
  r : ℚ
  g : ℚ
  b : ℚ
deriving DecidableEq

/-- An RGB color object with an alpha channel, as returned by `decimalToRgb`. -/
structure RGBA where
  r : ℚ
  g : ℚ
  b : ℚ
  a : ℚ
deriving DecidableEq

/-- An HSV color object `{h, s, v}`. -/
structure HSV where
  h : ℚ
  s : ℚ
  v : ℚ
deriving DecidableEq

/-- Source line 17: `RGB_BLACK` is `{r: 0, g: 0, b: 0}`. -/
def RGB_BLACK : RGB := ⟨0, 0, 0⟩

/-- Source line 22: `RGB_WHITE` is `{r: 255, g: 255, b: 255}`. -/
def RGB_WHITE : RGB := ⟨255, 255, 255⟩

/-- Source lines 45-51 (`Color.decimalToRgb`): extract the four bytes of the
decimal with `>>` and `& 0xFF`; an extracted alpha of 0 becomes 255. -/
def decimalToRgb (decimal : ℚ) : RGBA :=
  let a := jsAnd (jsShr decimal 24) 255
  let r := jsAnd (jsShr decimal 16) 255
  let g := jsAnd (jsShr decimal 8) 255
  let b := jsAnd (toInt32 decimal) 255
  ⟨(r : ℚ), (g : ℚ), (b : ℚ), if 0 < a then (a : ℚ) else 255⟩

/-- The replacement step of source line 62: the anchored shorthand regex
`^#?([a-f\d])([a-f\d])([a-f\d])$` matched case-insensitively; on a match the
whole string is replaced by the doubled digits. -/
def expandShorthand (cs : List Char) : List Char :=
  match cs with
  | [a, b, c] =>
      if isHexDig a && isHexDig b && isHexDig c then [a, a, b, b, c, c] else cs
  | ['#', a, b, c] =>
      if isHexDig a && isHexDig b && isHexDig c then [a, a, b, b, c, c] else cs
  | _ => cs

/-- `parseInt(hh, 16)` applied to the two-hex-digit groups of the regex. -/
def hexPair (h1 h2 : Char) : ℚ := ((16 * hexDigVal h1 + hexDigVal h2 : ℕ) : ℚ)

/-- Source lines 60-69 (`Color.hexToRgb`): expand the 3-digit shorthand, then
match `^#?([a-f\d]{2})([a-f\d]{2})([a-f\d]{2})$` case-insensitively; `null`
(here `none`) when the string matches neither pattern. -/
def hexToRgb (hex : String) : Option RGB :=
  match expandShorthand hex.data with
  | [a, b, c, d, e, f] =>
      if isHexDig a && isHexDig b && isHexDig c && isHexDig d && isHexDig e && isHexDig f
      then some ⟨hexPair a b, hexPair c d, hexPair e f⟩ else none
  | ['#', a, b, c, d, e, f] =>
      if isHexDig a && isHexDig b && isHexDig c && isHexDig d && isHexDig e && isHexDig f
      then some ⟨hexPair a b, hexPair c d, hexPair e f⟩ else none
  | _ => none

/-- Source lines 85-87 (`Color.rgbToDecimal`): `(rgb.r << 16) + (rgb.g << 8) + rgb.b`.
Note the blue channel is added raw, without any bitwise coercion. -/
def rgbToDecimal (rgb : RGB) : ℚ :=
  ((jsShl rgb.r 16 : ℤ) : ℚ) + ((jsShl rgb.g 8 : ℤ) : ℚ) + rgb.b

/-- Source lines 94-96 (`Color.hexToDecimal`): `rgbToDecimal(hexToRgb(hex))`.
When `hexToRgb` returns `null`, the JS code dereferences `null.r` inside
`rgbToDecimal` and throws a `TypeError`; the thrown exception is modelled
as `none`. -/
def hexToDecimal (hex : String) : Option ℚ := (hexToRgb hex).map rgbToDecimal

/-- Source lines 104-105: `h % 360`, plus 360 if negative. -/
def normHue (x : ℚ) : ℚ :=
  let h0 := jsRatMod x 360
  if h0 < 0 then h0 + 360 else h0

/-- Source lines 106-107: `Math.max(0, Math.min(x, 1))`. -/
def clamp01 (x : ℚ) : ℚ := max 0 (min x 1)

/-- Source lines 119-151: the `switch (i)` selecting the channel permutation;
`default` falls through to `case 0`. -/
def sectorRGB (i : ℤ) (v p q t : ℚ) : ℚ × ℚ × ℚ :=
  if i = 1 then (q, v, p)
  else if i = 2 then (p, v, t)
  else if i = 3 then (p, q, v)
  else if i = 4 then (t, p, v)
  else if i = 5 then (v, p, q)
  else (v, t, p)

/-- Source lines 109-157: the body of `hsvToRgb` after hue normalization and
clamping of `s` and `v`. -/
def hsvCore (h s v : ℚ) : RGB :=
  let i := ⌊h / 60⌋
  let f := h / 60 - ((i : ℤ) : ℚ)
  let p := v * (1 - s)
  let q := v * (1 - s * f)
  let t := v * (1 - s * (1 - f))
  let c := sectorRGB i v p q t
  ⟨((⌊c.1 * 255⌋ : ℤ) : ℚ), ((⌊c.2.1 * 255⌋ : ℤ) : ℚ), ((⌊c.2.2 * 255⌋ : ℤ) : ℚ)⟩

/-- Source lines 103-158 (`Color.hsvToRgb`). -/
def hsvToRgb (hsv : HSV) : RGB :=
  hsvCore (normHue hsv.h) (clamp01 hsv.s) (clamp01 hsv.v)

/-- Source lines 192-201 (`Color.mixRgb`): linear interpolation per channel;
the boundary fractions return an input unchanged. -/
def mixRgb (rgb0 rgb1 : RGB) (fraction1 : ℚ) : RGB :=
  if fraction1 ≤ 0 then rgb0
  else if 1 ≤ fraction1 then rgb1
  else
    let fraction0 := 1 - fraction1
    ⟨fraction0 * rgb0.r + fraction1 * rgb1.r,
     fraction0 * rgb0.g + fraction1 * rgb1.g,
     fraction0 * rgb0.b + fraction1 * rgb1.b⟩

end Color

namespace Cast

open JsVal

/-- Source lines 211-229 (`Cast.toNumber`): numbers pass through with NaN
mapped to 0; anything else is coerced with `Number` and NaN mapped to 0. -/
def toNumber (v : Value) : JNum :=
  match v with
  | .num n => if n.isNaN then .rat 0 else n
  | _ =>
    let n := jsToNumber v
    if n.isNaN then .rat 0 else n

/-- Source lines 238-255 (`Cast.toBoolean`): booleans pass through; the
strings `""`, `"0"` and case-insensitive `"false"` are false and every other
string is true; other values use JS truthiness. -/
def toBoolean (v : Value) : Bool :=
  match v with
  | .bool b => b
  | .str s =>
    if s.data = [] ∨ s.data = ['0'] ∨ s.data.map Char.toLower = "false".data then false
    else true
  | .num n => !(n = .rat 0 ∨ n = .nan : Bool)
  | .null => false
  | .undef => false

/-- Source lines 299-301 (`Cast.isWhiteSpace`):
`val === null || (typeof val === 'string' && val.trim().length === 0)`. -/
def isWhiteSpace (v : Value) : Bool :=
  decide (v = .null) ||
    (match v with
     | .str s => (jsTrimList s.data).isEmpty
     | _ => false)

/-- Source lines 320-328: the case-insensitive string-comparison fallback of
`Cast.compare`, returning exactly -1, 0 or 1. -/
def strCompare (v1 v2 : Value) : JNum :=
  let s1 := (jsToString v1).map Char.toLower
  let s2 := (jsToString v2).map Char.toLower
  if lexLt s1 s2 then .rat (-1) else if lexLt s2 s1 then .rat 1 else .rat 0

/-- Source lines 310-339 (`Cast.compare`): coerce both sides with `Number`;
an `else if` rewrites (at most) one side to NaN when it is `=== 0` and
whitespace; NaN on either side falls back to string comparison; like-signed
infinities compare equal; otherwise the result is `n1 - n2`. -/
def compare (v1 v2 : Value) : JNum :=
  let n1 := jsToNumber v1
  let n2 := jsToNumber v2
  let p : JNum × JNum :=
    if n1 = .rat 0 ∧ isWhiteSpace v1 then (.nan, n2)
    else if n2 = .rat 0 ∧ isWhiteSpace v2 then (n1, .nan)
    else (n1, n2)
  if p.1.isNaN ∨ p.2.isNaN then strCompare v1 v2
  else if (p.1 = .posInf ∧ p.2 = .posInf) ∨ (p.1 = .negInf ∧ p.2 = .negInf) then .rat 0
  else p.1.sub p.2

/-- Source lines 346-362 (`Cast.isInt`): numbers compare against
`parseInt(val, 10)` (which stringifies the number first), with NaN counted as
an integer; booleans are integers; strings are integers when they contain no
`.`; other values are not. -/
def isInt (v : Value) : Bool :=
  match v with
  | .num n => if n.isNaN then true else n.seq (jsParseInt 10 (jsNumToString n))
  | .bool _ => true
  | .str s => !(s.data.contains '.')
  | .null => false
  | .undef => false

/-- The result of `Cast.toListIndex`: a JS number, or one of the two sentinel
strings `Cast.LIST_ALL` / `Cast.LIST_INVALID`. -/
inductive ListIndex where
  | idx (n : JNum)
  | all
  | invalid
deriving DecidableEq

/-- Source lines 382-404 (`Cast.toListIndex`).  The sentinel strings are only
tested when the index is not a number.  `rnd` stands for the value
`Math.floor(Math.random() * length)` consumed by the `random`/`any` branch. -/
def toListIndex (index : Value) (length : ℤ) (acceptAll : Bool) (rnd : ℤ) : ListIndex :=
  if ¬ index.isNumber ∧ index = .str "all" then
    (if acceptAll then .all else .invalid)
  else if ¬ index.isNumber ∧ index = .str "last" then
    (if 0 < length then .idx (.rat (length : ℚ)) else .invalid)
  else if ¬ index.isNumber ∧ (index = .str "random" ∨ index = .str "any") then
    (if 0 < length then .idx (.rat ((1 + rnd : ℤ) : ℚ)) else .invalid)
  else if ((toNumber index).floor).ltb (.rat 1) ∨
      (JNum.rat ((length : ℤ) : ℚ)).ltb ((toNumber index).floor) then .invalid
  else .idx ((toNumber index).floor)

end Cast

namespace Spec

open JsVal

/-- The adjustment described by the specification of `compare`: a side whose
`Number` coercion is zero while the value itself is whitespace is treated as
NaN.  Unlike the code's `else if`, this is applied to each side
independently. -/
def adjustWS (v : Value) : JNum :=
  if jsToNumber v = .rat 0 ∧ Cast.isWhiteSpace v then .nan else jsToNumber v

/-- The specification's description of `compare`: if either side is NaN after
the whitespace adjustment, fall back to case-insensitive string comparison in
{-1, 0, 1}; like-signed infinities are equal; otherwise the numeric difference
`n1 - n2`. -/
def compareSpec (v1 v2 : Value) : JNum :=
  if (adjustWS v1).isNaN ∨ (adjustWS v2).isNaN then Cast.strCompare v1 v2
  else if (jsToNumber v1 = .posInf ∧ jsToNumber v2 = .posInf) ∨
      (jsToNumber v1 = .negInf ∧ jsToNumber v2 = .negInf) then .rat 0
  else (jsToNumber v1).sub (jsToNumber v2)

/-- The optional leading `#` of the specification's description of
`hexToRgb`. -/
def stripHash : List Char → List Char
  | '#' :: rest => rest
  | cs => cs

/-- The specification's description of `hexToRgb`: after an optional leading
`#`, either a 3-digit shorthand (each digit doubled) or a 6-digit hex string,
case-insensitively; `null` otherwise. -/
def hexToRgbSpec (hex : String) : Option Color.RGB :=
  match stripHash hex.data with
  | [a, b, c] =>
      if isHexDig a && isHexDig b && isHexDig c then
        some ⟨Color.hexPair a a, Color.hexPair b b, Color.hexPair c c⟩
      else none
  | [a, b, c, d, e, f] =>
      if isHexDig a && isHexDig b && isHexDig c && isHexDig d && isHexDig e && isHexDig f
      then some ⟨Color.hexPair a b, Color.hexPair c d, Color.hexPair e f⟩ else none
  | _ => none

/-- An RGB channel value that is an integer in `[0, 255]` (the invariant the
specification asserts for color-model outputs). -/
def intIn255 (x : ℚ) : Prop := x.den = 1 ∧ 0 ≤ x ∧ x ≤ 255

instance : DecidablePred intIn255 := fun x =>
  decidable_of_iff (x.den = 1 ∧ 0 ≤ x ∧ x ≤ 255) Iff.rfl

/-- The specification's sector selection for `hsvToRgb`: the sector index is
`floor(h/60) mod 6`, with an explicit case for each of the 6 permutations. -/
def sectorRGBSpec (j : ℤ) (v p q t : ℚ) : ℚ × ℚ × ℚ :=
  if j = 0 then (v, t, p)
  else if j = 1 then (q, v, p)
  else if j = 2 then (p, v, t)
  else if j = 3 then (p, q, v)
  else if j = 4 then (t, p, v)
  else (v, p, q)

/-- The specification's description of `hsvToRgb`: normalize the hue into
`[0, 360)` by modulo-then-add-360, clamp `s` and `v` into `[0, 1]`, select the
channel permutation by `floor(h/60) mod 6`, floor each channel after scaling
by 255. -/
def hsvToRgbSpec (hsv : Color.HSV) : Color.RGB :=
  let h := Color.normHue hsv.h
  let s := Color.clamp01 hsv.s
  let v := Color.clamp01 hsv.v
  let j := ⌊h / 60⌋ % 6
  let f := h / 60 - ((⌊h / 60⌋ : ℤ) : ℚ)
  let p := v * (1 - s)
  let q := v * (1 - s * f)
  let t := v * (1 - s * (1 - f))
  let c := sectorRGBSpec j v p q t
  ⟨((⌊c.1 * 255⌋ : ℤ) : ℚ), ((⌊c.2.1 * 255⌋ : ℤ) : ℚ), ((⌊c.2.2 * 255⌋ : ℤ) : ℚ)⟩

end Spec

/-- Claim C2 (code bug): the spec demands that no operation throws on
malformed input, but `Color.hexToDecimal` on a string that is not a hex color
passes `hexToRgb`'s `null` into `rgbToDecimal`, which dereferences `null.r`
and throws a `TypeError` (modelled by `none`): there is no fallback value. -/
theorem hexToDecimal_throws_on_malformed : Color.hexToDecimal "zz" = none := by decide!

/-- Claim C9 (counterexample): `isWhiteSpace` uses `val === null`, which is
false for `undefined`, so `undefined` is not whitespace even though the claim
says absent values (null or undefined) are. -/
theorem isWhiteSpace_undefined_counterexample : Cast.isWhiteSpace JsVal.Value.undef = false := rfl

/-- Claim C9 (corrected): `isWhiteSpace` returns true exactly for `null` and
for strings that trim to the empty string; every other value, including
`undefined`, gives false. -/
theorem isWhiteSpace_characterization (v : JsVal.Value) :
    Cast.isWhiteSpace v = true ↔
      (v = JsVal.Value.null ∨ ∃ s, v = JsVal.Value.str s ∧ JsVal.jsTrimList s.data = []) := by
  cases v <;> simp [Cast.isWhiteSpace, List.isEmpty_iff]

section CompareLemmas

open JsVal

/-- JS string order is asymmetric. -/
theorem lexLt_asymm : ∀ a b : List Char, lexLt a b = true → lexLt b a = false := by
  intro a
  induction a with
  | nil => intro b h; cases b <;> simp [lexLt]
  | cons x xs ih =>
    intro b h
    cases b with
    | nil => simp [lexLt] at h
    | cons y ys =>
      simp only [lexLt, Bool.or_eq_true, Bool.and_eq_true, decide_eq_true_eq] at h
      rcases h with h | ⟨rfl, h⟩
      · simp [lexLt, lt_asymm h, (ne_of_lt h).symm]
      · simp [lexLt, lt_irrefl, ih ys h]

/-- The code's one-sided `else if` NaN adjustment computes the same result as
the specification's two-sided adjustment: when both sides are zero-and-white,
both versions take the string branch. -/
theorem compare_eq_compareSpec (v1 v2 : Value) :
    Cast.compare v1 v2 = Spec.compareSpec v1 v2 := by
  unfold Cast.compare Spec.compareSpec Spec.adjustWS
  by_cases h1 : jsToNumber v1 = .rat 0 ∧ Cast.isWhiteSpace v1 = true
  · simp [h1, JNum.isNaN]
  · by_cases h2 : jsToNumber v2 = .rat 0 ∧ Cast.isWhiteSpace v2 = true
    · simp [h1, h2, JNum.isNaN]
    · simp [h1, h2]

/-- Swapping the arguments of JS subtraction negates the sign, as long as
neither argument is NaN and the arguments are not two like-signed
infinities. -/
theorem sub_sign_antisymm (m1 m2 : JNum) (h1 : m1.isNaN = false) (h2 : m2.isNaN = false)
    (h3 : ¬(m1 = .posInf ∧ m2 = .posInf)) (h4 : ¬(m1 = .negInf ∧ m2 = .negInf)) :
    (m1.sub m2).sign = -((m2.sub m1).sign) := by
  cases m1 <;> cases m2 <;> simp_all [JNum.sub, JNum.sign, JNum.isNaN]
  case rat.rat a b =>
    rcases lt_trichotomy a b with h | rfl | h
    · simp [h, lt_asymm h]
    · simp
    · simp [h, lt_asymm h]

/-- The string-comparison fallback is sign-antisymmetric. -/
theorem strCompare_sign (v1 v2 : Value) :
    (Cast.strCompare v1 v2).sign = -((Cast.strCompare v2 v1).sign) := by
  unfold Cast.strCompare
  cases hb : lexLt ((jsToString v1).map Char.toLower) ((jsToString v2).map Char.toLower) <;>
    cases hb2 : lexLt ((jsToString v2).map Char.toLower) ((jsToString v1).map Char.toLower) <;>
      simp [hb, hb2, JNum.sign] <;> norm_num
  exact absurd hb2 (by simp [lexLt_asymm _ _ hb])

/-- If the adjusted value is not NaN, the adjustment did nothing and the raw
coercion is not NaN either. -/
theorem adjustWS_not_nan {v : Value} (h : (Spec.adjustWS v).isNaN = false) :
    Spec.adjustWS v = jsToNumber v ∧ (jsToNumber v).isNaN = false := by
  by_cases hc : jsToNumber v = .rat 0 ∧ Cast.isWhiteSpace v = true
  · rw [Spec.adjustWS, if_pos hc] at h
    simp [JNum.isNaN] at h
  · rw [Spec.adjustWS, if_neg hc] at h ⊢
    exact ⟨rfl, h⟩

end CompareLemmas

/-- Claim C1 (confirmed): `compare` computes exactly the claimed semantics:
with both sides coerced by `Number` and a side replaced by NaN when it is
numerically zero and whitespace, a NaN on either side yields the -1/0/1
case-insensitive string comparison, like-signed infinities yield 0, and
every other case yields the numeric difference `n1 - n2`; in particular
`compare("", 0) != 0` and `compare(Infinity, Infinity) == 0`. -/
theorem compare_claimed_semantics :
    (∀ v1 v2 : JsVal.Value, Cast.compare v1 v2 = Spec.compareSpec v1 v2) ∧
      Cast.compare (.str "") (.num (.rat 0)) ≠ JsVal.JNum.rat 0 ∧
      Cast.compare (.num .posInf) (.num .posInf) = JsVal.JNum.rat 0 :=
  ⟨compare_eq_compareSpec, by decide!, by decide!⟩

/-- Claim C10 (confirmed): `compare` is sign-antisymmetric, even though the
whitespace-to-NaN rewrite is applied through an `else if` to at most one side
per call. -/
theorem compare_sign_antisymmetric (v1 v2 : JsVal.Value) :
    (Cast.compare v1 v2).sign = -((Cast.compare v2 v1).sign) := by
  open JsVal in
  rw [compare_eq_compareSpec, compare_eq_compareSpec]
  unfold Spec.compareSpec
  by_cases hc : (Spec.adjustWS v1).isNaN = true ∨ (Spec.adjustWS v2).isNaN = true
  · rw [if_pos hc, if_pos hc.symm]
    exact strCompare_sign v1 v2
  · push_neg at hc
    obtain ⟨hc1, hc2⟩ := hc
    replace hc1 : (Spec.adjustWS v1).isNaN = false := Bool.eq_false_iff.mpr hc1
    replace hc2 : (Spec.adjustWS v2).isNaN = false := Bool.eq_false_iff.mpr hc2
    obtain ⟨-, hn1⟩ := adjustWS_not_nan hc1
    obtain ⟨-, hn2⟩ := adjustWS_not_nan hc2
    rw [if_neg (show ¬((Spec.adjustWS v1).isNaN = true ∨ (Spec.adjustWS v2).isNaN = true) by
          simp [hc1, hc2]),
      if_neg (show ¬((Spec.adjustWS v2).isNaN = true ∨ (Spec.adjustWS v1).isNaN = true) by
          simp [hc1, hc2])]
    by_cases hinf :
        (JsVal.jsToNumber v1 = .posInf ∧ JsVal.jsToNumber v2 = .posInf) ∨
          (JsVal.jsToNumber v1 = .negInf ∧ JsVal.jsToNumber v2 = .negInf)
    · rw [if_pos hinf,
        if_pos (show (JsVal.jsToNumber v2 = .posInf ∧ JsVal.jsToNumber v1 = .posInf) ∨
          (JsVal.jsToNumber v2 = .negInf ∧ JsVal.jsToNumber v1 = .negInf) by tauto)]
      simp [JsVal.JNum.sign]
    · rw [if_neg hinf,
        if_neg (show ¬((JsVal.jsToNumber v2 = .posInf ∧ JsVal.jsToNumber v1 = .posInf) ∨
          (JsVal.jsToNumber v2 = .negInf ∧ JsVal.jsToNumber v1 = .negInf)) by tauto)]
      exact sub_sign_antisymm _ _ hn1 hn2 (by tauto) (by tauto)

/-- Claim C8 (confirmed): `hexToRgb` accepts exactly the strings that, after
an optional leading `#`, are a 3-digit hex shorthand (each digit doubled) or
a 6-digit hex string, case-insensitively, and returns `null` otherwise. -/
theorem hexToRgb_pattern (hex : String) : Color.hexToRgb hex = Spec.hexToRgbSpec hex := by
  open JsVal in
  have hash : isHexDig '#' = false := by decide
  obtain ⟨cs⟩ := hex
  rcases cs with _ | ⟨c1, _ | ⟨c2, _ | ⟨c3, _ | ⟨c4, _ | ⟨c5, _ | ⟨c6, _ | ⟨c7, rest⟩⟩⟩⟩⟩⟩⟩
  · rfl
  · by_cases h1 : c1 = '#' <;>
      simp [Color.hexToRgb, Spec.hexToRgbSpec, Color.expandShorthand, Spec.stripHash, h1]
  · by_cases h1 : c1 = '#' <;>
      simp [Color.hexToRgb, Spec.hexToRgbSpec, Color.expandShorthand, Spec.stripHash, h1]
  · by_cases h1 : c1 = '#'
    · subst h1
      simp [Color.hexToRgb, Spec.hexToRgbSpec, Color.expandShorthand, Spec.stripHash, hash]
    · by_cases hC : ((isHexDig c1 && isHexDig c2) && isHexDig c3) = true
      · simp only [Bool.and_eq_true] at hC
        obtain ⟨⟨hA, hB⟩, hD⟩ := hC
        simp [Color.hexToRgb, Spec.hexToRgbSpec, Color.expandShorthand, Spec.stripHash,
          h1, hA, hB, hD]
      · simp only [Bool.not_eq_true] at hC
        simp [Color.hexToRgb, Spec.hexToRgbSpec, Color.expandShorthand, Spec.stripHash,
          h1, hC]
  · by_cases h1 : c1 = '#'
    · subst h1
      by_cases hC : ((isHexDig c2 && isHexDig c3) && isHexDig c4) = true
      · simp only [Bool.and_eq_true] at hC
        obtain ⟨⟨hA, hB⟩, hD⟩ := hC
        simp [Color.hexToRgb, Spec.hexToRgbSpec, Color.expandShorthand, Spec.stripHash,
          hA, hB, hD]
      · simp only [Bool.not_eq_true] at hC
        simp [Color.hexToRgb, Spec.hexToRgbSpec, Color.expandShorthand, Spec.stripHash, hC]
    · simp [Color.hexToRgb, Spec.hexToRgbSpec, Color.expandShorthand, Spec.stripHash, h1]
  · by_cases h1 : c1 = '#' <;>
      simp [Color.hexToRgb, Spec.hexToRgbSpec, Color.expandShorthand, Spec.stripHash, h1]
  · by_cases h1 : c1 = '#'
    · subst h1
      simp [Color.hexToRgb, Spec.hexToRgbSpec, Color.expandShorthand, Spec.stripHash, hash]
    · simp [Color.hexToRgb, Spec.hexToRgbSpec, Color.expandShorthand, Spec.stripHash, h1]
  · rcases rest with _ | ⟨c8, rest2⟩
    · by_cases h1 : c1 = '#'
      · subst h1
        simp [Color.hexToRgb, Spec.hexToRgbSpec, Color.expandShorthand, Spec.stripHash]
      · simp [Color.hexToRgb, Spec.hexToRgbSpec, Color.expandShorthand, Spec.stripHash, h1]
    · by_cases h1 : c1 = '#' <;>
        simp [Color.hexToRgb, Spec.hexToRgbSpec, Color.expandShorthand, Spec.stripHash, h1]

section ListIndexLemmas

open JsVal

/-- Remapping NaN to 0 never returns NaN. -/
theorem nanGuard_not_nan (x : JNum) :
    (if x.isNaN = true then JNum.rat 0 else x).isNaN = false := by
  by_cases h : x.isNaN = true
  · rw [if_pos h]; rfl
  · rw [if_neg h]; exact Bool.eq_false_iff.mpr h

/-- `Cast.toNumber` never returns NaN. -/
theorem toNumber_not_nan (v : Value) : (Cast.toNumber v).isNaN = false := by
  cases v <;> simp only [Cast.toNumber] <;> exact nanGuard_not_nan _

/-- `Math.floor` preserves non-NaN-ness. -/
theorem floor_not_nan {n : JNum} (h : n.isNaN = false) : n.floor.isNaN = false := by
  cases n <;> simp_all [JNum.floor, JNum.isNaN]

/-- On non-NaN numbers, JS `<` is the negation of the reversed `<=`. -/
theorem ltb_iff_not_leb (a b : JNum) (ha : a.isNaN = false) (hb : b.isNaN = false) :
    a.ltb b = !(b.leb a) := by
  cases a <;> cases b <;> simp_all [JNum.ltb, JNum.leb, JNum.isNaN]
  rename_i x y
  rcases le_or_lt y x with h | h
  · simp [h, not_lt.mpr h]
  · simp [h, not_le.mpr h]

end ListIndexLemmas

/-- Claim C3 (confirmed): `toListIndex` maps `"all"` to `ALL` only when
`acceptAll` holds, `"last"` to `length` only when `length > 0`, and floors
the numeric coercion of any other non-sentinel value, accepting it exactly
when it lies in `[1, length]`; in particular `toListIndex(3.9, 5, false) = 3`
and `toListIndex(0, 5, false) = INVALID`. -/
theorem toListIndex_resolution (index : JsVal.Value) (length : ℤ) (acceptAll : Bool) (rnd : ℤ)
    (hl : 0 ≤ length) :
    (index = .str "all" →
      Cast.toListIndex index length acceptAll rnd =
        (if acceptAll then .all else .invalid)) ∧
    (index = .str "last" →
      Cast.toListIndex index length acceptAll rnd =
        (if 0 < length then .idx (.rat ((length : ℤ) : ℚ)) else .invalid)) ∧
    (index ≠ .str "all" → index ≠ .str "last" → index ≠ .str "random" → index ≠ .str "any" →
      Cast.toListIndex index length acceptAll rnd =
        (if ((JsVal.JNum.rat 1).leb ((Cast.toNumber index).floor) &&
              ((Cast.toNumber index).floor).leb (.rat ((length : ℤ) : ℚ))) = true
         then .idx ((Cast.toNumber index).floor) else .invalid)) ∧
    Cast.toListIndex (.num (.rat (39/10))) 5 false 0 = .idx (.rat 3) ∧
    Cast.toListIndex (.num (.rat 0)) 5 false 0 = .invalid := by
  open JsVal in
  refine ⟨?_, ?_, ?_, by decide!, by decide!⟩
  · rintro rfl
    simp [Cast.toListIndex, Value.isNumber]
  · rintro rfl
    have h1 : (Value.str "last") ≠ .str "all" := by decide
    simp [Cast.toListIndex, Value.isNumber, h1]
  · intro h1 h2 h3 h4
    rw [Cast.toListIndex, if_neg (by tauto), if_neg (by tauto), if_neg (by tauto)]
    have hi : ((Cast.toNumber index).floor).isNaN = false := floor_not_nan (toNumber_not_nan index)
    rw [ltb_iff_not_leb ((Cast.toNumber index).floor) (JNum.rat 1) hi rfl,
      ltb_iff_not_leb (JNum.rat ((length : ℤ) : ℚ)) ((Cast.toNumber index).floor) rfl hi]
    cases ha : (JNum.rat 1).leb ((Cast.toNumber index).floor) <;>
      cases hb : ((Cast.toNumber index).floor).leb (.rat ((length : ℤ) : ℚ)) <;>
        simp [ha, hb]

/-- Witness for C3 at `index = "all"`, `length = 5`, `acceptAll = true`. -/
theorem toListIndex_resolution_witness :
    (0 : ℤ) ≤ 5 ∧ Cast.toListIndex (.str "all") 5 true 0 = Cast.ListIndex.all :=
  ⟨by decide, (toListIndex_resolution (.str "all") 5 true 0 (by decide)).1 rfl⟩

section Int32Lemmas

open JsVal

/-- Truncation of an integer cast is the integer itself. -/
theorem ratTrunc_intCast (n : ℤ) : ratTrunc ((n : ℤ) : ℚ) = n := by
  unfold ratTrunc
  by_cases h : (0:ℚ) ≤ (n:ℚ) <;> simp [h, Int.floor_intCast, Int.ceil_intCast]

/-- `ToUint32` of an integer already in `[0, 2^32)`. -/
theorem toUint32_intCast {n : ℤ} (h0 : 0 ≤ n) (h1 : n < 4294967296) :
    toUint32 ((n:ℤ):ℚ) = n.toNat := by
  unfold toUint32
  rw [ratTrunc_intCast]
  have h2 : n % 4294967296 = n := by omega
  rw [h2]

/-- Unsigned values below `2^31` are their own int32 interpretation. -/
theorem int32OfUint_small {m : ℕ} (h : m < 2147483648) : int32OfUint m = (m : ℤ) := by
  unfold int32OfUint
  rw [if_pos h]

/-- `ToInt32` is the identity on integers in `[0, 2^31)`. -/
theorem toInt32_small {n : ℤ} (h0 : 0 ≤ n) (h1 : n < 2147483648) : toInt32 ((n:ℤ):ℚ) = n := by
  unfold toInt32
  rw [toUint32_intCast h0 (by omega), int32OfUint_small (by omega)]
  omega

/-- `<<` is plain multiplication when the result stays in int32 range. -/
theorem jsShl_eval {n : ℤ} {k : ℕ} (h0 : 0 ≤ n) (h1 : n * 2^k < 2147483648) :
    jsShl ((n:ℤ):ℚ) k = n * 2^k := by
  have hp : (0:ℤ) < 2^k := by positivity
  have h2 : n < 4294967296 := by nlinarith
  unfold jsShl
  rw [toUint32_intCast h0 h2]
  have h3 : (n.toNat * 2^k : ℕ) < 2147483648 := by
    zify
    rw [Int.toNat_of_nonneg h0]
    exact h1
  rw [Nat.mod_eq_of_lt (lt_trans h3 (by norm_num)), int32OfUint_small h3]
  push_cast [Int.toNat_of_nonneg h0]
  ring

/-- `>>` is Euclidean division by `2^k` on small nonnegative integers. -/
theorem jsShr_eval {n : ℤ} (k : ℕ) (h0 : 0 ≤ n) (h1 : n < 2147483648) :
    jsShr ((n:ℤ):ℚ) k = n / 2^k := by
  unfold jsShr
  rw [toInt32_small h0 h1]

/-- `& 0xFF` is `% 256` on values in `[0, 2^32)`. -/
theorem jsAnd_255 {x : ℤ} (h0 : 0 ≤ x) (h1 : x < 4294967296) : jsAnd x 255 = x % 256 := by
  unfold jsAnd
  have e1 : x % 4294967296 = x := by omega
  rw [e1, (by norm_num : ((255:ℤ) % 4294967296) = 255)]
  have e3 : x.toNat &&& (255 : ℤ).toNat = x.toNat % 256 := by
    have h8 := Nat.and_pow_two_sub_one_eq_mod x.toNat 8
    norm_num at h8 ⊢
    exact h8
  rw [e3, int32OfUint_small (by have := Nat.mod_lt x.toNat (show 0 < 256 by norm_num); omega)]
  omega

/-- `rgbToDecimal` on byte-valued channels is 24-bit packing (the blue channel
is added raw). -/
theorem rgbToDecimal_ints {r g b : ℤ} (hr0 : 0 ≤ r) (hr1 : r ≤ 255)
    (hg0 : 0 ≤ g) (hg1 : g ≤ 255) :
    Color.rgbToDecimal ⟨(r:ℚ), (g:ℚ), (b:ℚ)⟩ = ((r * 65536 + g * 256 + b : ℤ) : ℚ) := by
  unfold Color.rgbToDecimal
  rw [jsShl_eval hr0 (by norm_num; omega), jsShl_eval hg0 (by norm_num; omega)]
  push_cast
  ring

end Int32Lemmas

/-- Claim C5 (confirmed): packing integer channels in `[0, 255]` with
`rgbToDecimal` and unpacking with `decimalToRgb` restores the channels. -/
theorem rgb_decimal_roundtrip (r g b : ℤ) (hr0 : 0 ≤ r) (hr1 : r ≤ 255)
    (hg0 : 0 ≤ g) (hg1 : g ≤ 255) (hb0 : 0 ≤ b) (hb1 : b ≤ 255) :
    (Color.decimalToRgb (Color.rgbToDecimal ⟨(r:ℚ), (g:ℚ), (b:ℚ)⟩)).r = (r:ℚ) ∧
    (Color.decimalToRgb (Color.rgbToDecimal ⟨(r:ℚ), (g:ℚ), (b:ℚ)⟩)).g = (g:ℚ) ∧
    (Color.decimalToRgb (Color.rgbToDecimal ⟨(r:ℚ), (g:ℚ), (b:ℚ)⟩)).b = (b:ℚ) := by
  open JsVal in
  rw [rgbToDecimal_ints hr0 hr1 hg0 hg1]
  set N : ℤ := r * 65536 + g * 256 + b with hN
  have hN0 : 0 ≤ N := by omega
  have hN1 : N < 2147483648 := by omega
  have hd16_0 : 0 ≤ N / 2 ^ 16 := Int.ediv_nonneg hN0 (by positivity)
  have hd16_1 : N / 2 ^ 16 < 4294967296 :=
    lt_of_le_of_lt (Int.ediv_le_self _ hN0) (by omega)
  have hd8_0 : 0 ≤ N / 2 ^ 8 := Int.ediv_nonneg hN0 (by positivity)
  have hd8_1 : N / 2 ^ 8 < 4294967296 :=
    lt_of_le_of_lt (Int.ediv_le_self _ hN0) (by omega)
  refine ⟨?_, ?_, ?_⟩
  · show ((JsVal.jsAnd (JsVal.jsShr ((N : ℤ) : ℚ) 16) 255 : ℤ) : ℚ) = (r : ℚ)
    rw [jsShr_eval 16 hN0 hN1, jsAnd_255 hd16_0 hd16_1]
    exact Int.cast_inj.mpr (by omega)
  · show ((JsVal.jsAnd (JsVal.jsShr ((N : ℤ) : ℚ) 8) 255 : ℤ) : ℚ) = (g : ℚ)
    rw [jsShr_eval 8 hN0 hN1, jsAnd_255 hd8_0 hd8_1]
    exact Int.cast_inj.mpr (by omega)
  · show ((JsVal.jsAnd (JsVal.toInt32 ((N : ℤ) : ℚ)) 255 : ℤ) : ℚ) = (b : ℚ)
    rw [toInt32_small hN0 hN1, jsAnd_255 hN0 (by omega)]
    exact Int.cast_inj.mpr (by omega)

/-- Witness for C5 at `(r, g, b) = (12, 34, 56)`. -/
theorem rgb_decimal_roundtrip_witness :
    (Color.decimalToRgb (Color.rgbToDecimal ⟨((12:ℤ):ℚ), ((34:ℤ):ℚ), ((56:ℤ):ℚ)⟩)).r
        = ((12:ℤ):ℚ) ∧
    (Color.decimalToRgb (Color.rgbToDecimal ⟨((12:ℤ):ℚ), ((34:ℤ):ℚ), ((56:ℤ):ℚ)⟩)).g
        = ((34:ℤ):ℚ) ∧
    (Color.decimalToRgb (Color.rgbToDecimal ⟨((12:ℤ):ℚ), ((34:ℤ):ℚ), ((56:ℤ):ℚ)⟩)).b
        = ((56:ℤ):ℚ) :=
  rgb_decimal_roundtrip 12 34 56 (by decide) (by decide) (by decide) (by decide)
    (by decide) (by decide)

section HsvLemmas

open JsVal

/-- The normalized hue lies in `[0, 360)` for every input. -/
theorem normHue_bounds (x : ℚ) : 0 ≤ Color.normHue x ∧ Color.normHue x < 360 := by
  unfold Color.normHue jsRatMod
  set y := x / 360 with hy
  have hx : x = 360 * y := by
    rw [hy]; field_simp
  rcases le_or_lt 0 y with h | h
  · have ht : ratTrunc y = ⌊y⌋ := by unfold ratTrunc; rw [if_pos h]
    have e : x - 360 * ((ratTrunc y : ℤ) : ℚ) = 360 * Int.fract y := by
      rw [ht, Int.fract]; rw [hx]; ring
    rw [e]
    have f0 : 0 ≤ Int.fract y := Int.fract_nonneg y
    have f1 : Int.fract y < 1 := Int.fract_lt_one y
    rw [if_neg (by linarith)]
    constructor <;> linarith
  · have ht : ratTrunc y = ⌈y⌉ := by unfold ratTrunc; rw [if_neg (by linarith)]
    have hcl : y ≤ ((⌈y⌉ : ℤ) : ℚ) := Int.le_ceil y
    have hcu : ((⌈y⌉ : ℤ) : ℚ) < y + 1 := Int.ceil_lt_add_one y
    have e : x - 360 * ((ratTrunc y : ℤ) : ℚ) = 360 * (y - ((⌈y⌉ : ℤ) : ℚ)) := by
      rw [ht, hx]; ring
    rw [e]
    by_cases hz : 360 * (y - ((⌈y⌉ : ℤ) : ℚ)) < 0
    · rw [if_pos hz]
      constructor <;> nlinarith
    · rw [if_neg hz]
      constructor <;> nlinarith

/-- On sector indices in `[0, 6)` the specification's `mod 6` dispatch picks
the same permutation as the code's `switch` with fall-through default. -/
theorem sector_spec_eq (i : ℤ) (h0 : 0 ≤ i) (h1 : i < 6) (v p q t : ℚ) :
    Spec.sectorRGBSpec (i % 6) v p q t = Color.sectorRGB i v p q t := by
  rw [Int.emod_eq_of_lt h0 h1]
  interval_cases i <;> simp [Spec.sectorRGBSpec, Color.sectorRGB]

/-- `hsvToRgb` agrees with the specification's description pointwise. -/
theorem hsvToRgb_eq_spec (hsv : Color.HSV) : Color.hsvToRgb hsv = Spec.hsvToRgbSpec hsv := by
  obtain ⟨hh0, hh1⟩ := normHue_bounds hsv.h
  have hi0 : 0 ≤ ⌊Color.normHue hsv.h / 60⌋ := Int.floor_nonneg.mpr (by positivity)
  have hi1 : ⌊Color.normHue hsv.h / 60⌋ < 6 := by
    have h6 : Color.normHue hsv.h / 60 < ((6 : ℤ) : ℚ) := by push_cast; linarith
    exact Int.floor_lt.mpr h6
  simp only [Color.hsvToRgb, Color.hsvCore, Spec.hsvToRgbSpec]
  rw [sector_spec_eq _ hi0 hi1]

end HsvLemmas

/-- Claim C6 (confirmed): `hsvToRgb` normalizes the hue into `[0,360)` by
modulo-then-add-360, clamps `s` and `v` into `[0,1]`, selects the channel
permutation by the sector index `floor(h/60)` (equal to its value mod 6), and
floors each channel after scaling by 255; in particular it maps
`{h:0,s:0,v:1}` to white and `{h:0,s:1,v:1}` to red. -/
theorem hsvToRgb_matches_spec :
    (∀ hsv : Color.HSV, Color.hsvToRgb hsv = Spec.hsvToRgbSpec hsv) ∧
      Color.hsvToRgb ⟨0, 0, 1⟩ = ⟨255, 255, 255⟩ ∧
      Color.hsvToRgb ⟨0, 1, 1⟩ = ⟨255, 0, 0⟩ :=
  ⟨hsvToRgb_eq_spec, by decide!, by decide!⟩

section RangeLemmas

open JsVal

/-- The integer cast of a byte value satisfies the channel invariant. -/
theorem intCast_in255 {z : ℤ} (h0 : 0 ≤ z) (h1 : z ≤ 255) : Spec.intIn255 ((z : ℤ) : ℚ) :=
  ⟨Rat.den_intCast _, by exact_mod_cast h0, by exact_mod_cast h1⟩

/-- `& 0xFF` always lands in `[0, 255]`. -/
theorem jsAnd_255_range (x : ℤ) : 0 ≤ jsAnd x 255 ∧ jsAnd x 255 ≤ 255 := by
  unfold jsAnd
  rw [(by norm_num : ((255:ℤ) % 4294967296) = 255)]
  have hlt : (x % 4294967296).toNat &&& (255 : ℤ).toNat < 256 := by
    have h8 : ((255 : ℤ).toNat) < 2 ^ 8 := by norm_num
    exact Nat.and_lt_two_pow _ h8
  rw [int32OfUint_small (by omega)]
  omega

/-- Every channel of `decimalToRgb` is an integer byte. -/
theorem decimalToRgb_range (d : ℚ) :
    Spec.intIn255 ((Color.decimalToRgb d).r) ∧ Spec.intIn255 ((Color.decimalToRgb d).g) ∧
      Spec.intIn255 ((Color.decimalToRgb d).b) := by
  refine ⟨?_, ?_, ?_⟩
  · show Spec.intIn255 ((jsAnd (jsShr d 16) 255 : ℤ) : ℚ)
    exact intCast_in255 (jsAnd_255_range _).1 (jsAnd_255_range _).2
  · show Spec.intIn255 ((jsAnd (jsShr d 8) 255 : ℤ) : ℚ)
    exact intCast_in255 (jsAnd_255_range _).1 (jsAnd_255_range _).2
  · show Spec.intIn255 ((jsAnd (toInt32 d) 255 : ℤ) : ℚ)
    exact intCast_in255 (jsAnd_255_range _).1 (jsAnd_255_range _).2

/-- Hex digits have value below 16. -/
theorem hexDigVal_lt_16 {c : Char} (h : isHexDig c = true) : hexDigVal c < 16 := by
  unfold isHexDig isDig at h
  unfold hexDigVal isDig digitVal
  simp only [Bool.or_eq_true, Bool.and_eq_true, decide_eq_true_eq] at h
  rcases h with (h | h) | h
  · rw [if_pos (by simp only [Bool.and_eq_true, decide_eq_true_eq]; omega)]
    omega
  · rw [if_neg (by simp only [Bool.and_eq_true, decide_eq_true_eq]; omega),
      if_pos (by simp only [Bool.and_eq_true, decide_eq_true_eq]; omega)]
    omega
  · rw [if_neg (by simp only [Bool.and_eq_true, decide_eq_true_eq]; omega),
      if_neg (by simp only [Bool.and_eq_true, decide_eq_true_eq]; omega)]
    omega

/-- A parsed two-hex-digit group is an integer byte. -/
theorem hexPair_range {c1 c2 : Char} (h1 : isHexDig c1 = true) (h2 : isHexDig c2 = true) :
    Spec.intIn255 (Color.hexPair c1 c2) := by
  have v1 := hexDigVal_lt_16 h1
  have v2 := hexDigVal_lt_16 h2
  unfold Color.hexPair
  refine ⟨Rat.den_natCast _, by positivity, ?_⟩
  have hle : 16 * hexDigVal c1 + hexDigVal c2 ≤ 255 := by omega
  exact_mod_cast hle

/-- Every channel of a successful `hexToRgb` is an integer byte. -/
theorem hexToRgb_range (s : String) (rgb : Color.RGB) (h : Color.hexToRgb s = some rgb) :
    Spec.intIn255 rgb.r ∧ Spec.intIn255 rgb.g ∧ Spec.intIn255 rgb.b := by
  unfold Color.hexToRgb at h
  split at h
  · rename_i a b c d e f
    split_ifs at h with hc
    simp only [Bool.and_eq_true] at hc
    obtain ⟨⟨⟨⟨⟨ha, hb⟩, hc1⟩, hd⟩, he⟩, hf⟩ := hc
    cases h
    exact ⟨hexPair_range ha hb, hexPair_range hc1 hd, hexPair_range he hf⟩
  · rename_i a b c d e f
    split_ifs at h with hc
    simp only [Bool.and_eq_true] at hc
    obtain ⟨⟨⟨⟨⟨ha, hb⟩, hc1⟩, hd⟩, he⟩, hf⟩ := hc
    cases h
    exact ⟨hexPair_range ha hb, hexPair_range hc1 hd, hexPair_range he hf⟩
  · exact absurd h (by simp)

/-- `clamp01` lands in `[0, 1]`. -/
theorem clamp01_range (x : ℚ) : 0 ≤ Color.clamp01 x ∧ Color.clamp01 x ≤ 1 :=
  ⟨le_max_left 0 _, max_le (by norm_num) (min_le_right x 1)⟩

/-- Flooring a `[0,1]` value scaled by 255 gives an integer byte. -/
theorem floor_scale_range {x : ℚ} (h0 : 0 ≤ x) (h1 : x ≤ 1) :
    Spec.intIn255 ((⌊x * 255⌋ : ℤ) : ℚ) := by
  refine intCast_in255 (Int.floor_nonneg.mpr (by positivity)) ?_
  have h2 : x * 255 ≤ ((255 : ℤ) : ℚ) := by push_cast; nlinarith
  calc ⌊x * 255⌋ ≤ ⌊((255 : ℤ) : ℚ)⌋ := Int.floor_le_floor h2
    _ = 255 := Int.floor_intCast 255

/-- Every channel of `hsvCore` is an integer byte when `s, v` are in `[0,1]`. -/
theorem hsvCore_range (h s v : ℚ) (hs0 : 0 ≤ s) (hs1 : s ≤ 1) (hv0 : 0 ≤ v) (hv1 : v ≤ 1) :
    Spec.intIn255 ((Color.hsvCore h s v).r) ∧ Spec.intIn255 ((Color.hsvCore h s v).g) ∧
      Spec.intIn255 ((Color.hsvCore h s v).b) := by
  have hf0 : 0 ≤ h / 60 - ((⌊h / 60⌋ : ℤ) : ℚ) := by
    have := Int.floor_le (h / 60); linarith
  have hf1 : h / 60 - ((⌊h / 60⌋ : ℤ) : ℚ) ≤ 1 := by
    have := Int.lt_floor_add_one (h / 60); linarith
  set f := h / 60 - ((⌊h / 60⌋ : ℤ) : ℚ) with hfdef
  have aux : ∀ X : ℚ, 0 ≤ X → X ≤ 1 → 0 ≤ v * (1 - X) ∧ v * (1 - X) ≤ 1 := by
    intro X h0 h1
    exact ⟨mul_nonneg hv0 (by linarith),
      le_trans (mul_le_of_le_one_right hv0 (by linarith)) hv1⟩
  have hsf0 : 0 ≤ s * f := mul_nonneg hs0 hf0
  have hsf1 : s * f ≤ 1 := le_trans (mul_le_of_le_one_left hf0 hs1) hf1
  have hsg0 : 0 ≤ s * (1 - f) := mul_nonneg hs0 (by linarith)
  have hsg1 : s * (1 - f) ≤ 1 := le_trans (mul_le_of_le_one_left (by linarith) hs1) (by linarith)
  have hp := aux s hs0 hs1
  have hq := aux (s * f) hsf0 hsf1
  have ht := aux (s * (1 - f)) hsg0 hsg1
  have hvv : 0 ≤ v ∧ v ≤ 1 := ⟨hv0, hv1⟩
  have main : ∀ c : ℚ × ℚ × ℚ,
      c = Color.sectorRGB ⌊h / 60⌋ v (v * (1 - s)) (v * (1 - s * f)) (v * (1 - s * (1 - f))) →
      (0 ≤ c.1 ∧ c.1 ≤ 1) ∧ (0 ≤ c.2.1 ∧ c.2.1 ≤ 1) ∧ (0 ≤ c.2.2 ∧ c.2.2 ≤ 1) := by
    intro c hc
    unfold Color.sectorRGB at hc
    split_ifs at hc <;> subst hc
    · exact ⟨hq, hvv, hp⟩
    · exact ⟨hp, hvv, ht⟩
    · exact ⟨hp, hq, hvv⟩
    · exact ⟨ht, hp, hvv⟩
    · exact ⟨hvv, hp, hq⟩
    · exact ⟨hvv, ht, hp⟩
  obtain ⟨⟨a0, a1⟩, ⟨b0, b1⟩, ⟨c0, c1⟩⟩ := main _ rfl
  exact ⟨floor_scale_range a0 a1, floor_scale_range b0 b1, floor_scale_range c0 c1⟩

/-- Every channel of `hsvToRgb` is an integer byte, for every input. -/
theorem hsvToRgb_range (hsv : Color.HSV) :
    Spec.intIn255 ((Color.hsvToRgb hsv).r) ∧ Spec.intIn255 ((Color.hsvToRgb hsv).g) ∧
      Spec.intIn255 ((Color.hsvToRgb hsv).b) := by
  unfold Color.hsvToRgb
  exact hsvCore_range _ _ _ (clamp01_range hsv.s).1 (clamp01_range hsv.s).2
    (clamp01_range hsv.v).1 (clamp01_range hsv.v).2

/-- `mixRgb` channels stay in `[0, 255]` on byte-valued inputs (but need not
be integers). -/
theorem mixRgb_range (rgb0 rgb1 : Color.RGB) (f : ℚ)
    (h0 : Spec.intIn255 rgb0.r ∧ Spec.intIn255 rgb0.g ∧ Spec.intIn255 rgb0.b)
    (h1 : Spec.intIn255 rgb1.r ∧ Spec.intIn255 rgb1.g ∧ Spec.intIn255 rgb1.b) :
    (0 ≤ (Color.mixRgb rgb0 rgb1 f).r ∧ (Color.mixRgb rgb0 rgb1 f).r ≤ 255) ∧
    (0 ≤ (Color.mixRgb rgb0 rgb1 f).g ∧ (Color.mixRgb rgb0 rgb1 f).g ≤ 255) ∧
    (0 ≤ (Color.mixRgb rgb0 rgb1 f).b ∧ (Color.mixRgb rgb0 rgb1 f).b ≤ 255) := by
  obtain ⟨⟨-, r00, r01⟩, ⟨-, g00, g01⟩, ⟨-, b00, b01⟩⟩ := h0
  obtain ⟨⟨-, r10, r11⟩, ⟨-, g10, g11⟩, ⟨-, b10, b11⟩⟩ := h1
  unfold Color.mixRgb
  split_ifs with hf0 hf1
  · exact ⟨⟨r00, r01⟩, ⟨g00, g01⟩, ⟨b00, b01⟩⟩
  · exact ⟨⟨r10, r11⟩, ⟨g10, g11⟩, ⟨b10, b11⟩⟩
  · push_neg at hf0 hf1
    dsimp only
    refine ⟨⟨?_, ?_⟩, ⟨?_, ?_⟩, ⟨?_, ?_⟩⟩ <;>
      nlinarith [mul_nonneg (le_of_lt hf0) r10, mul_nonneg (le_of_lt hf0) g10,
        mul_nonneg (le_of_lt hf0) b10,
        mul_nonneg (by linarith : (0:ℚ) ≤ 1 - f) r00,
        mul_nonneg (by linarith : (0:ℚ) ≤ 1 - f) g00,
        mul_nonneg (by linarith : (0:ℚ) ≤ 1 - f) b00,
        mul_nonneg (le_of_lt hf0) (by linarith : (0:ℚ) ≤ 255 - rgb1.r),
        mul_nonneg (le_of_lt hf0) (by linarith : (0:ℚ) ≤ 255 - rgb1.g),
        mul_nonneg (le_of_lt hf0) (by linarith : (0:ℚ) ≤ 255 - rgb1.b),
        mul_nonneg (by linarith : (0:ℚ) ≤ 1 - f) (by linarith : (0:ℚ) ≤ 255 - rgb0.r),
        mul_nonneg (by linarith : (0:ℚ) ≤ 1 - f) (by linarith : (0:ℚ) ≤ 255 - rgb0.g),
        mul_nonneg (by linarith : (0:ℚ) ≤ 1 - f) (by linarith : (0:ℚ) ≤ 255 - rgb0.b)]

end RangeLemmas

/-- Claim C7 (counterexample): `mixRgb` of black and white at fraction 1/2 has
channel value 127.5, which is not an integer, so not every color-model output
has integer channels. -/
theorem mixRgb_fractional_counterexample :
    (Color.mixRgb Color.RGB_BLACK Color.RGB_WHITE (1/2)).r = 255/2 ∧
      ¬ Spec.intIn255 ((Color.mixRgb Color.RGB_BLACK Color.RGB_WHITE (1/2)).r) :=
  ⟨by decide!, by decide!⟩

/-- Claim C7 (corrected): `decimalToRgb`, successful `hexToRgb`, and
`hsvToRgb` always produce integer channels in `[0, 255]`; `mixRgb` on inputs
with integer channels in `[0, 255]` produces channels in `[0, 255]` that need
not be integers. -/
theorem rgb_range_invariant :
    (∀ d : ℚ, Spec.intIn255 ((Color.decimalToRgb d).r) ∧
      Spec.intIn255 ((Color.decimalToRgb d).g) ∧ Spec.intIn255 ((Color.decimalToRgb d).b)) ∧
    (∀ (s : String) (rgb : Color.RGB), Color.hexToRgb s = some rgb →
      Spec.intIn255 rgb.r ∧ Spec.intIn255 rgb.g ∧ Spec.intIn255 rgb.b) ∧
    (∀ hsv : Color.HSV, Spec.intIn255 ((Color.hsvToRgb hsv).r) ∧
      Spec.intIn255 ((Color.hsvToRgb hsv).g) ∧ Spec.intIn255 ((Color.hsvToRgb hsv).b)) ∧
    (∀ (rgb0 rgb1 : Color.RGB) (f : ℚ),
      (Spec.intIn255 rgb0.r ∧ Spec.intIn255 rgb0.g ∧ Spec.intIn255 rgb0.b) →
      (Spec.intIn255 rgb1.r ∧ Spec.intIn255 rgb1.g ∧ Spec.intIn255 rgb1.b) →
      (0 ≤ (Color.mixRgb rgb0 rgb1 f).r ∧ (Color.mixRgb rgb0 rgb1 f).r ≤ 255) ∧
      (0 ≤ (Color.mixRgb rgb0 rgb1 f).g ∧ (Color.mixRgb rgb0 rgb1 f).g ≤ 255) ∧
      (0 ≤ (Color.mixRgb rgb0 rgb1 f).b ∧ (Color.mixRgb rgb0 rgb1 f).b ≤ 255)) :=
  ⟨decimalToRgb_range, hexToRgb_range, hsvToRgb_range, mixRgb_range⟩

/-- Witness for C7: the hex part at `"#fff"` and the mix part at black, white
and fraction 1/2. -/
theorem rgb_range_invariant_witness :
    (Spec.intIn255 ((Color.RGB.mk 255 255 255).r) ∧
      Spec.intIn255 ((Color.RGB.mk 255 255 255).g) ∧
      Spec.intIn255 ((Color.RGB.mk 255 255 255).b)) ∧
    ((0 ≤ (Color.mixRgb Color.RGB_BLACK Color.RGB_WHITE (1/2)).r ∧
        (Color.mixRgb Color.RGB_BLACK Color.RGB_WHITE (1/2)).r ≤ 255) ∧
      (0 ≤ (Color.mixRgb Color.RGB_BLACK Color.RGB_WHITE (1/2)).g ∧
        (Color.mixRgb Color.RGB_BLACK Color.RGB_WHITE (1/2)).g ≤ 255) ∧
      (0 ≤ (Color.mixRgb Color.RGB_BLACK Color.RGB_WHITE (1/2)).b ∧
        (Color.mixRgb Color.RGB_BLACK Color.RGB_WHITE (1/2)).b ≤ 255)) :=
  ⟨rgb_range_invariant.2.1 "#fff" ⟨255, 255, 255⟩ (by decide!),
   rgb_range_invariant.2.2.2 Color.RGB_BLACK Color.RGB_WHITE (1/2) (by decide!) (by decide!)⟩

open JsVal

theorem digitsFuel_succ (f n : ℕ) :
    digitsFuel (f + 1) n = if n = 0 then [] else n % 10 :: digitsFuel f (n / 10) := rfl

theorem digitsFuel_eq_digits : ∀ f n : ℕ, n ≤ f → digitsFuel f n = Nat.digits 10 n := by
  intro f
  induction f with
  | zero =>
    intro n hn
    interval_cases n
    exact (Nat.digits_zero 10).symm
  | succ f ih =>
    intro n hn
    rw [digitsFuel_succ]
    by_cases h : n = 0
    · simp [h]
    · rw [if_neg h, ih (n / 10) (by omega), ← Nat.digits_def' (by norm_num : (1:ℕ) < 10)
        (Nat.pos_of_ne_zero h)]

theorem natDigits10_eq (n : ℕ) : natDigits10 n = Nat.digits 10 n :=
  digitsFuel_eq_digits n n le_rfl

theorem multFuel_succ (p f n : ℕ) :
    multFuel p (f + 1) n = if 2 ≤ p ∧ n ≠ 0 ∧ n % p = 0 then 1 + multFuel p f (n / p) else 0 := rfl

theorem multFuel_dvd : ∀ (p f n : ℕ), n ≤ f → p ^ (multFuel p f n) ∣ n := by
  intro p f
  induction f with
  | zero =>
    intro n hn
    interval_cases n
    simp
  | succ f ih =>
    intro n hn
    rw [multFuel_succ]
    by_cases h : 2 ≤ p ∧ n ≠ 0 ∧ n % p = 0
    · rw [if_pos h]
      obtain ⟨hp, hn0, hmod⟩ := h
      have hdvd : p ∣ n := Nat.dvd_of_mod_eq_zero hmod
      have hlt : n / p ≤ f := by
        have : n / p < n := Nat.div_lt_self (Nat.pos_of_ne_zero hn0) (by omega)
        omega
      obtain ⟨c, hc⟩ := ih (n / p) hlt
      refine ⟨c, ?_⟩
      rw [pow_add, pow_one, mul_assoc, ← hc, Nat.mul_div_cancel' hdvd]
    · rw [if_neg h]
      simp

theorem mult_dvd (p n : ℕ) : p ^ (mult p n) ∣ n := multFuel_dvd p n n le_rfl

theorem digitChar_val :
    ∀ d < 10, isDig (Nat.digitChar d) = true ∧ digitVal (Nat.digitChar d) = d := by
  decide

theorem digitsBE_all_dig (m : ℕ) : ∀ c ∈ digitsBE m, isDig c = true := by
  intro c hc
  simp only [digitsBE, natDigits10_eq, List.mem_map, List.mem_reverse] at hc
  obtain ⟨d, hd, rfl⟩ := hc
  exact (digitChar_val d (Nat.digits_lt_base (by norm_num) hd)).1

theorem charsVal_foldl_gen (l : List ℕ) :
    ∀ a : ℕ, List.foldl (fun x d => 10 * x + d) a l
      = a * 10 ^ l.length + List.foldl (fun x d => 10 * x + d) 0 l := by
  induction l with
  | nil => intro a; simp
  | cons d t ih =>
    intro a
    simp only [List.foldl_cons, List.length_cons, Nat.mul_zero, Nat.zero_add]
    rw [ih (10 * a + d), ih d]
    ring

theorem charsVal_append (xs ys : List Char) :
    charsVal (xs ++ ys) = charsVal xs * 10 ^ ys.length + charsVal ys := by
  unfold charsVal ofDigitsBE
  rw [List.map_append, List.foldl_append, charsVal_foldl_gen (ys.map digitVal)]
  simp

theorem charsVal_lt (cs : List Char) (h : ∀ c ∈ cs, isDig c = true) :
    charsVal cs < 10 ^ cs.length := by
  unfold charsVal ofDigitsBE
  have gen : ∀ (l : List Char), (∀ c ∈ l, isDig c = true) → ∀ a : ℕ,
      List.foldl (fun x d => 10 * x + d) a (l.map digitVal) < (a + 1) * 10 ^ l.length := by
    intro l
    induction l with
    | nil => intro _ a; simp
    | cons c t ih =>
      intro hl a
      have hc : isDig c = true := hl c (List.mem_cons_self c t)
      have hd : digitVal c ≤ 9 := by
        unfold isDig at hc
        simp only [Bool.and_eq_true, decide_eq_true_eq] at hc
        unfold digitVal
        omega
      simp only [List.map_cons, List.foldl_cons, List.length_cons]
      calc List.foldl (fun x d => 10 * x + d) (10 * a + digitVal c) (t.map digitVal)
          < (10 * a + digitVal c + 1) * 10 ^ t.length :=
            ih (fun x hct => hl x (List.mem_cons_of_mem _ hct)) _
        _ ≤ ((a + 1) * 10) * 10 ^ t.length := by
            have hle : 10 * a + digitVal c + 1 ≤ (a + 1) * 10 := by omega
            exact Nat.mul_le_mul_right _ hle
        _ = (a + 1) * 10 ^ (t.length + 1) := by ring
  have h0 := gen cs h 0
  simpa using h0

theorem charsVal_replicate_zero (j : ℕ) : charsVal (List.replicate j '0') = 0 := by
  induction j with
  | zero => rfl
  | succ j ih =>
    rw [List.replicate_succ', charsVal_append, ih]
    rfl

theorem ofDigitsBE_reverse (l : List ℕ) : ofDigitsBE 10 l.reverse = Nat.ofDigits 10 l := by
  unfold ofDigitsBE
  have gen : ∀ (t : List ℕ) (a : ℕ),
      List.foldl (fun x d => 10 * x + d) a t.reverse = a * 10 ^ t.length + Nat.ofDigits 10 t := by
    intro t
    induction t with
    | nil => intro a; simp [Nat.ofDigits]
    | cons d s ih =>
      intro a
      rw [List.reverse_cons, List.foldl_append]
      simp only [List.foldl_cons, List.foldl_nil, List.length_cons]
      rw [ih a, Nat.ofDigits_cons]
      ring
  have h0 := gen l 0
  simpa using h0

theorem charsVal_digitsBE (m : ℕ) : charsVal (digitsBE m) = m := by
  unfold charsVal digitsBE
  rw [natDigits10_eq, List.map_map, List.map_reverse]
  have hmap : (Nat.digits 10 m).map (digitVal ∘ Nat.digitChar) = Nat.digits 10 m := by
    have hcongr : (Nat.digits 10 m).map (digitVal ∘ Nat.digitChar)
        = (Nat.digits 10 m).map id :=
      List.map_congr_left fun d hd =>
        (digitChar_val d (Nat.digits_lt_base (by norm_num) hd)).2
    rw [hcongr, List.map_id]
  rw [hmap, ofDigitsBE_reverse, Nat.ofDigits_digits]

theorem isDig_toNat {c : Char} (h : isDig c = true) : 48 ≤ c.toNat ∧ c.toNat ≤ 57 := by
  unfold isDig at h
  simp only [Bool.and_eq_true, decide_eq_true_eq] at h
  exact h

theorem isDig_not_space {c : Char} (h : isDig c = true) : isJsSpace c = false := by
  obtain ⟨h1, h2⟩ := isDig_toNat h
  unfold isJsSpace
  simp only [Bool.or_eq_true, Bool.and_eq_true, decide_eq_true_eq, Bool.or_eq_false_iff,
    Bool.and_eq_false_iff, decide_eq_false_iff_not]
  omega

theorem isDig_ne_minus {c : Char} (h : isDig c = true) : c ≠ '-' := by
  intro hc
  subst hc
  exact absurd h (by decide)

theorem isDig_ne_plus {c : Char} (h : isDig c = true) : c ≠ '+' := by
  intro hc
  subst hc
  exact absurd h (by decide)

theorem isRadixDig_ten : isRadixDig 10 = isDig := by
  funext c
  simp [isRadixDig]

theorem takeWhile_digits_append :
    ∀ (ds rest : List Char), (∀ c ∈ ds, isDig c = true) →
      (∀ y, rest.head? = some y → isDig y = false) →
      (ds ++ rest).takeWhile isDig = ds := by
  intro ds
  induction ds with
  | nil =>
    intro rest _ hrest
    cases rest with
    | nil => rfl
    | cons y ys =>
      simp only [List.nil_append, List.takeWhile_cons, hrest y rfl, Bool.false_eq_true, if_false]
  | cons d t ih =>
    intro rest hall hrest
    simp only [List.cons_append, List.takeWhile_cons, hall d (List.mem_cons_self d t),
      eq_self_iff_true, if_true, List.cons.injEq, true_and]
    exact ih rest (fun c hc => hall c (List.mem_cons_of_mem _ hc)) hrest

theorem radDigVal_eq_digitVal {c : Char} (h : isDig c = true) : radDigVal c = digitVal c := by
  unfold radDigVal
  rw [if_pos h]

theorem map_radDigVal (ds : List Char) (hall : ∀ c ∈ ds, isDig c = true) :
    ds.map radDigVal = ds.map digitVal :=
  List.map_congr_left fun c hc => radDigVal_eq_digitVal (hall c hc)

theorem jsParseInt10_digits (ds rest : List Char) (hne : ds ≠ [])
    (hall : ∀ c ∈ ds, isDig c = true)
    (hrest : ∀ y, rest.head? = some y → isDig y = false) :
    jsParseInt 10 (ds ++ rest) = .rat ((charsVal ds : ℕ) : ℚ) := by
  obtain ⟨d, t, rfl⟩ := List.exists_cons_of_ne_nil hne
  have hd : isDig d = true := hall d (List.mem_cons_self d t)
  have hm : (d = '-') = False := by simp [isDig_ne_minus hd]
  have hp : (d = '+') = False := by simp [isDig_ne_plus hd]
  unfold jsParseInt
  rw [List.cons_append, List.dropWhile_cons]
  simp only [isDig_not_space hd, Bool.false_eq_true, if_false, List.head?_cons,
    Option.some.injEq, hm, hp, or_self, if_false, isRadixDig_ten,
    (by norm_num : ((10:ℕ) = 16) = False)]
  rw [← List.cons_append, takeWhile_digits_append _ _ hall hrest, if_neg hne,
    map_radDigVal _ hall, one_mul]
  rfl

theorem jsParseInt10_neg_digits (ds rest : List Char) (hne : ds ≠ [])
    (hall : ∀ c ∈ ds, isDig c = true)
    (hrest : ∀ y, rest.head? = some y → isDig y = false) :
    jsParseInt 10 ('-' :: (ds ++ rest)) = .rat (-((charsVal ds : ℕ) : ℚ)) := by
  unfold jsParseInt
  rw [List.dropWhile_cons]
  simp only [(by decide : isJsSpace '-' = false), Bool.false_eq_true, if_false,
    List.head?_cons, Option.some.injEq, eq_self_iff_true, true_or, if_true, List.tail_cons,
    isRadixDig_ten, (by norm_num : ((10:ℕ) = 16) = False),
    takeWhile_digits_append _ _ hall hrest, if_neg hne, map_radDigVal _ hall, neg_one_mul]
  rfl

theorem expo_natCast (m : ℕ) : expo ((m : ℕ) : ℚ) = 0 := by
  unfold expo
  rw [Rat.den_natCast]
  decide

theorem mant_natCast (m : ℕ) : mant ((m : ℕ) : ℚ) = m := by
  unfold mant
  rw [expo_natCast, pow_zero, mul_one, Rat.num_natCast, Int.toNat_natCast]

theorem zer_dvd (m : ℕ) : 10 ^ zer ((m : ℕ) : ℚ) ∣ m := by
  show 10 ^ mult 10 (mant ((m : ℕ) : ℚ)) ∣ m
  rw [mant_natCast]
  exact mult_dvd 10 m

theorem sman_mul (m : ℕ) : sman ((m : ℕ) : ℚ) * 10 ^ zer ((m : ℕ) : ℚ) = m := by
  unfold sman
  rw [mant_natCast]
  exact Nat.div_mul_cancel (zer_dvd m)

theorem sman_pos (m : ℕ) (hm : m ≠ 0) : 1 ≤ sman ((m : ℕ) : ℚ) := by
  rcases Nat.eq_zero_or_pos (sman ((m : ℕ) : ℚ)) with h | h
  · exfalso
    have hs := sman_mul m
    rw [h, zero_mul] at hs
    exact hm hs.symm
  · exact h

theorem kdig_def (m : ℕ) : kdig ((m : ℕ) : ℚ) = (Nat.digits 10 (sman ((m : ℕ) : ℚ))).length := by
  unfold kdig
  rw [natDigits10_eq]

theorem pow_kdig_le (m : ℕ) (hm : m ≠ 0) :
    10 ^ (kdig ((m : ℕ) : ℚ) - 1 + zer ((m : ℕ) : ℚ)) ≤ m := by
  have hs := sman_pos m hm
  have hlen : kdig ((m : ℕ) : ℚ) = Nat.log 10 (sman ((m : ℕ) : ℚ)) + 1 := by
    rw [kdig_def]
    exact Nat.digits_len 10 _ (by norm_num) (by omega)
  have hlog : 10 ^ Nat.log 10 (sman ((m : ℕ) : ℚ)) ≤ sman ((m : ℕ) : ℚ) :=
    Nat.pow_log_le_self 10 (by omega)
  calc 10 ^ (kdig ((m : ℕ) : ℚ) - 1 + zer ((m : ℕ) : ℚ))
      = 10 ^ Nat.log 10 (sman ((m : ℕ) : ℚ)) * 10 ^ zer ((m : ℕ) : ℚ) := by
        rw [hlen, Nat.add_sub_cancel, pow_add]
    _ ≤ sman ((m : ℕ) : ℚ) * 10 ^ zer ((m : ℕ) : ℚ) := Nat.mul_le_mul_right _ hlog
    _ = m := sman_mul m

theorem lt_pow_kdig (m : ℕ) : m < 10 ^ (kdig ((m : ℕ) : ℚ) + zer ((m : ℕ) : ℚ)) := by
  have hub : sman ((m : ℕ) : ℚ) < 10 ^ kdig ((m : ℕ) : ℚ) := by
    rw [kdig_def]
    exact Nat.lt_base_pow_length_digits (by norm_num)
  calc m = sman ((m : ℕ) : ℚ) * 10 ^ zer ((m : ℕ) : ℚ) := (sman_mul m).symm
    _ < 10 ^ kdig ((m : ℕ) : ℚ) * 10 ^ zer ((m : ℕ) : ℚ) :=
        mul_lt_mul_of_pos_right hub (by positivity)
    _ = 10 ^ (kdig ((m : ℕ) : ℚ) + zer ((m : ℕ) : ℚ)) := (pow_add 10 _ _).symm

theorem npos_natCast (m : ℕ) :
    npos ((m : ℕ) : ℚ) = (kdig ((m : ℕ) : ℚ) : ℤ) + zer ((m : ℕ) : ℚ) := by
  unfold npos
  rw [expo_natCast]
  push_cast
  ring

theorem kdig_zer_le (m : ℕ) (h1 : 1 ≤ m) (h2 : m < 10 ^ 21) :
    kdig ((m : ℕ) : ℚ) + zer ((m : ℕ) : ℚ) ≤ 21 := by
  by_contra hc
  push_neg at hc
  have hle := pow_kdig_le m (by omega)
  have hge : (10 : ℕ) ^ 21 ≤ 10 ^ (kdig ((m : ℕ) : ℚ) - 1 + zer ((m : ℕ) : ℚ)) := by
    apply Nat.pow_le_pow_right (by norm_num)
    have hk : 1 ≤ kdig ((m : ℕ) : ℚ) := by
      rw [kdig_def]
      have hnn : Nat.digits 10 (sman ((m : ℕ) : ℚ)) ≠ [] :=
        Nat.digits_ne_nil_iff_ne_zero.mpr (show sman ((m : ℕ) : ℚ) ≠ 0 by
          have := sman_pos m (by omega); omega)
      cases h : Nat.digits 10 (sman ((m : ℕ) : ℚ)) with
      | nil => exact absurd h hnn
      | cons a l => simp
    omega
  omega

theorem posRatToDec_natCast (m : ℕ) (h1 : 1 ≤ m) (h2 : m < 10 ^ 21) :
    posRatToDec ((m : ℕ) : ℚ)
      = digitsBE (sman ((m : ℕ) : ℚ)) ++ List.replicate (zer ((m : ℕ) : ℚ)) '0' := by
  have hden : (((m : ℕ) : ℚ) * (10 : ℚ) ^ expo ((m : ℕ) : ℚ)).den = 1 := by
    rw [expo_natCast, pow_zero, mul_one, Rat.den_natCast]
  have hn21 := kdig_zer_le m h1 h2
  simp only [posRatToDec]
  rw [if_pos hden, if_pos (show (kdig ((m : ℕ) : ℚ) : ℤ) ≤ npos ((m : ℕ) : ℚ)
      ∧ npos ((m : ℕ) : ℚ) ≤ 21 by rw [npos_natCast]; omega)]
  rw [show (npos ((m : ℕ) : ℚ) - kdig ((m : ℕ) : ℚ)).toNat = zer ((m : ℕ) : ℚ) by
    rw [npos_natCast]; omega]

theorem digitsBE_ne_nil {m : ℕ} (hm : m ≠ 0) : digitsBE m ≠ [] := by
  unfold digitsBE
  rw [natDigits10_eq]
  intro h
  rcases List.map_eq_nil_iff.mp h with h'
  exact Nat.digits_ne_nil_iff_ne_zero.mpr hm (List.reverse_eq_nil_iff.mp h')

theorem charsVal_posRat (m : ℕ) (h1 : 1 ≤ m) (h2 : m < 10 ^ 21) :
    charsVal (posRatToDec ((m : ℕ) : ℚ)) = m := by
  rw [posRatToDec_natCast m h1 h2, charsVal_append, charsVal_digitsBE, charsVal_replicate_zero,
    List.length_replicate, add_zero, sman_mul]

theorem posRatToDec_ne_nil (m : ℕ) (h1 : 1 ≤ m) (h2 : m < 10 ^ 21) :
    posRatToDec ((m : ℕ) : ℚ) ≠ [] := by
  rw [posRatToDec_natCast m h1 h2]
  intro h
  exact digitsBE_ne_nil (show sman ((m : ℕ) : ℚ) ≠ 0 by have := sman_pos m (by omega); omega)
    (List.append_eq_nil.mp h).1

theorem posRatToDec_all_dig (m : ℕ) (h1 : 1 ≤ m) (h2 : m < 10 ^ 21) :
    ∀ c ∈ posRatToDec ((m : ℕ) : ℚ), isDig c = true := by
  rw [posRatToDec_natCast m h1 h2]
  intro c hc
  rcases List.mem_append.mp hc with h | h
  · exact digitsBE_all_dig _ c h
  · rw [List.eq_of_mem_replicate h]
    decide

theorem parse_toString_nat (m : ℕ) (h1 : 1 ≤ m) (h2 : m < 10 ^ 21) :
    jsParseInt 10 (posRatToDec ((m : ℕ) : ℚ)) = .rat ((m : ℕ) : ℚ) := by
  have key := jsParseInt10_digits (posRatToDec ((m : ℕ) : ℚ)) []
    (posRatToDec_ne_nil m h1 h2) (posRatToDec_all_dig m h1 h2)
    (fun y hy => by simp at hy)
  rw [List.append_nil] at key
  rw [key, charsVal_posRat m h1 h2]

theorem parse_toString_neg (m : ℕ) (h1 : 1 ≤ m) (h2 : m < 10 ^ 21) :
    jsParseInt 10 ('-' :: posRatToDec ((m : ℕ) : ℚ)) = .rat (-((m : ℕ) : ℚ)) := by
  have key := jsParseInt10_neg_digits (posRatToDec ((m : ℕ) : ℚ)) []
    (posRatToDec_ne_nil m h1 h2) (posRatToDec_all_dig m h1 h2)
    (fun y hy => by simp at hy)
  rw [List.append_nil] at key
  rw [key, charsVal_posRat m h1 h2]

theorem isDig_digitVal_le {c : Char} (h : isDig c = true) : digitVal c ≤ 9 := by
  have := isDig_toNat h
  unfold digitVal
  omega

theorem posRatToDec_big (m : ℕ) (h : 10 ^ 21 ≤ m) :
    ∃ c r, posRatToDec ((m : ℕ) : ℚ) = c :: r ∧ isDig c = true ∧ digitVal c ≤ 9 ∧
      (∀ y, r.head? = some y → isDig y = false) := by
  have hm0 : m ≠ 0 := by intro h0; rw [h0] at h; exact absurd h (by norm_num)
  have hden : (((m : ℕ) : ℚ) * (10 : ℚ) ^ expo ((m : ℕ) : ℚ)).den = 1 := by
    rw [expo_natCast, pow_zero, mul_one, Rat.den_natCast]
  have hgt : 21 < kdig ((m : ℕ) : ℚ) + zer ((m : ℕ) : ℚ) := by
    by_contra hc
    push_neg at hc
    have hlt := lt_pow_kdig m
    have : (10 : ℕ) ^ (kdig ((m : ℕ) : ℚ) + zer ((m : ℕ) : ℚ)) ≤ 10 ^ 21 :=
      Nat.pow_le_pow_right (by norm_num) hc
    omega
  have hs0 : sman ((m : ℕ) : ℚ) ≠ 0 := by have := sman_pos m hm0; omega
  obtain ⟨c, cs, hcs⟩ : ∃ c cs, digitsBE (sman ((m : ℕ) : ℚ)) = c :: cs := by
    cases hd : digitsBE (sman ((m : ℕ) : ℚ)) with
    | nil => exact absurd hd (digitsBE_ne_nil hs0)
    | cons a l => exact ⟨a, l, rfl⟩
  have hcd : isDig c = true := digitsBE_all_dig _ c (by rw [hcs]; exact List.mem_cons_self c cs)
  have hout : posRatToDec ((m : ℕ) : ℚ)
      = mantissaChars (sman ((m : ℕ) : ℚ))
        ++ 'e' :: '+' :: digitsBE (npos ((m : ℕ) : ℚ) - 1).toNat := by
    simp only [posRatToDec]
    rw [if_pos hden,
      if_neg (show ¬((kdig ((m : ℕ) : ℚ) : ℤ) ≤ npos ((m : ℕ) : ℚ) ∧ npos ((m : ℕ) : ℚ) ≤ 21) by
        rw [npos_natCast]; omega),
      if_neg (show ¬(0 < npos ((m : ℕ) : ℚ) ∧ npos ((m : ℕ) : ℚ) ≤ 21) by
        rw [npos_natCast]; omega),
      if_neg (show ¬(-6 < npos ((m : ℕ) : ℚ) ∧ npos ((m : ℕ) : ℚ) ≤ 0) by
        rw [npos_natCast]; omega),
      if_pos (show 21 < npos ((m : ℕ) : ℚ) by rw [npos_natCast]; omega)]
  have hmc : mantissaChars (sman ((m : ℕ) : ℚ))
      = c :: (if cs.isEmpty then [] else '.' :: cs) := by
    unfold mantissaChars
    rw [hcs]
  refine ⟨c, (if cs.isEmpty then [] else '.' :: cs)
      ++ 'e' :: '+' :: digitsBE (npos ((m : ℕ) : ℚ) - 1).toNat,
    ?_, hcd, isDig_digitVal_le hcd, ?_⟩
  · rw [hout, hmc, List.cons_append]
  · intro y hy
    cases cs with
    | nil =>
      simp only [List.isEmpty_nil, eq_self_iff_true, if_true, List.nil_append, List.head?_cons,
        Option.some.injEq] at hy
      rw [← hy]
      decide
    | cons a l =>
      simp only [List.isEmpty_cons, Bool.false_eq_true, if_false, List.cons_append,
        List.head?_cons, Option.some.injEq] at hy
      rw [← hy]
      decide

theorem charsVal_singleton (c : Char) : charsVal [c] = digitVal c := by
  simp [charsVal, ofDigitsBE]

theorem parse_toString_big (m : ℕ) (h : 10 ^ 21 ≤ m) :
    ∃ d : ℕ, d ≤ 9 ∧ jsParseInt 10 (posRatToDec ((m : ℕ) : ℚ)) = .rat ((d : ℕ) : ℚ) := by
  obtain ⟨c, r, hout, hcd, hle, hrest⟩ := posRatToDec_big m h
  refine ⟨digitVal c, hle, ?_⟩
  have key := jsParseInt10_digits [c] r (by simp)
    (fun x hx => by rw [List.mem_singleton.mp hx]; exact hcd) hrest
  rw [hout, show c :: r = [c] ++ r from rfl, key, charsVal_singleton]

theorem parse_toString_neg_big (m : ℕ) (h : 10 ^ 21 ≤ m) :
    ∃ d : ℕ, d ≤ 9 ∧ jsParseInt 10 ('-' :: posRatToDec ((m : ℕ) : ℚ)) = .rat (-((d : ℕ) : ℚ)) := by
  obtain ⟨c, r, hout, hcd, hle, hrest⟩ := posRatToDec_big m h
  refine ⟨digitVal c, hle, ?_⟩
  have key := jsParseInt10_neg_digits [c] r (by simp)
    (fun x hx => by rw [List.mem_singleton.mp hx]; exact hcd) hrest
  rw [hout, show c :: r = [c] ++ r from rfl, key, charsVal_singleton]

theorem sign_ite_cases (P : Prop) [Decidable P] (l : List Char) (N : ℕ) :
    (if l = [] then JNum.nan else JNum.rat ((if P then (-1 : ℚ) else 1) * (N : ℚ))) = JNum.nan
      ∨ (∃ n : ℕ, (if l = [] then JNum.nan
          else JNum.rat ((if P then (-1 : ℚ) else 1) * (N : ℚ))) = JNum.rat ((n : ℕ) : ℚ))
      ∨ (∃ n : ℕ, (if l = [] then JNum.nan
          else JNum.rat ((if P then (-1 : ℚ) else 1) * (N : ℚ))) = JNum.rat (-((n : ℕ) : ℚ))) := by
  split_ifs with h1 h2
  · exact Or.inl rfl
  · exact Or.inr (Or.inr ⟨N, by rw [neg_one_mul]⟩)
  · exact Or.inr (Or.inl ⟨N, by rw [one_mul]⟩)

theorem jsParseInt_cases (r : ℕ) (s : List Char) :
    jsParseInt r s = .nan ∨ (∃ n : ℕ, jsParseInt r s = .rat ((n : ℕ) : ℚ))
      ∨ (∃ n : ℕ, jsParseInt r s = .rat (-((n : ℕ) : ℚ))) := by
  simp only [jsParseInt]
  exact sign_ite_cases _ _ _

theorem ratTrunc_self_iff (q : ℚ) : q = ((ratTrunc q : ℤ) : ℚ) ↔ q.den = 1 := by
  constructor
  · intro h
    rw [h]
    exact Rat.den_intCast _
  · intro h
    have hq : ((q.num : ℤ) : ℚ) = q := (Rat.den_eq_one_iff q).mp h
    rw [← hq, ratTrunc_intCast]

theorem isInt_rat_eq (q : ℚ) :
    Cast.isInt (.num (.rat q)) = (JNum.rat q).seq (jsParseInt 10 (jsNumToString (.rat q))) := rfl

theorem jsNumToString_pos (m : ℕ) (h1 : 1 ≤ m) :
    jsNumToString (.rat ((m : ℕ) : ℚ)) = posRatToDec ((m : ℕ) : ℚ) := by
  simp only [jsNumToString]
  rw [if_neg (show ¬((m : ℕ) : ℚ) = 0 by exact_mod_cast (by omega : m ≠ 0)),
    if_neg (show ¬((m : ℕ) : ℚ) < 0 by push_neg; positivity)]

theorem jsNumToString_negCast (m : ℕ) (h1 : 1 ≤ m) :
    jsNumToString (.rat (-((m : ℕ) : ℚ))) = '-' :: posRatToDec ((m : ℕ) : ℚ) := by
  simp only [jsNumToString]
  rw [if_neg (show ¬(-((m : ℕ) : ℚ)) = 0 by
      rw [neg_eq_zero]
      exact_mod_cast (by omega : m ≠ 0)),
    if_pos (show -((m : ℕ) : ℚ) < 0 from neg_lt_zero.mpr (by exact_mod_cast (by omega : 0 < m))),
    neg_neg]

theorem isInt_nat_small (m : ℕ) (h1 : 1 ≤ m) (h2 : m < 10 ^ 21) :
    Cast.isInt (.num (.rat ((m : ℕ) : ℚ))) = true := by
  rw [isInt_rat_eq, jsNumToString_pos m h1, parse_toString_nat m h1 h2]
  simp [JNum.seq]

theorem isInt_neg_small (m : ℕ) (h1 : 1 ≤ m) (h2 : m < 10 ^ 21) :
    Cast.isInt (.num (.rat (-((m : ℕ) : ℚ)))) = true := by
  rw [isInt_rat_eq, jsNumToString_negCast m h1, parse_toString_neg m h1 h2]
  simp [JNum.seq]

theorem isInt_nat_big (m : ℕ) (h : 10 ^ 21 ≤ m) :
    Cast.isInt (.num (.rat ((m : ℕ) : ℚ))) = false := by
  have h1 : 1 ≤ m := le_trans (by norm_num) h
  obtain ⟨d, hd, hp⟩ := parse_toString_big m h
  rw [isInt_rat_eq, jsNumToString_pos m h1, hp]
  simp only [JNum.seq, decide_eq_false_iff_not]
  intro he
  have hmd : m = d := Nat.cast_injective he
  have h' : 1000000000000000000000 ≤ m := by norm_num at h; exact h
  omega

theorem isInt_neg_big (m : ℕ) (h : 10 ^ 21 ≤ m) :
    Cast.isInt (.num (.rat (-((m : ℕ) : ℚ)))) = false := by
  have h1 : 1 ≤ m := le_trans (by norm_num) h
  obtain ⟨d, hd, hp⟩ := parse_toString_neg_big m h
  rw [isInt_rat_eq, jsNumToString_negCast m h1, hp]
  simp only [JNum.seq, decide_eq_false_iff_not]
  intro he
  have hmd : m = d := Nat.cast_injective (neg_inj.mp he)
  have h' : 1000000000000000000000 ≤ m := by norm_num at h; exact h
  omega

theorem isInt_nonint (q : ℚ) (hden : q.den ≠ 1) :
    Cast.isInt (.num (.rat q)) = false := by
  rw [isInt_rat_eq]
  rcases jsParseInt_cases 10 (jsNumToString (.rat q)) with hc | ⟨n, hc⟩ | ⟨n, hc⟩ <;> rw [hc]
  · rfl
  · simp only [JNum.seq, decide_eq_false_iff_not]
    intro he
    exact hden (by rw [he, Rat.den_natCast])
  · simp only [JNum.seq, decide_eq_false_iff_not]
    intro he
    apply hden
    rw [he, show -((n : ℕ) : ℚ) = (((-(n : ℤ)) : ℤ) : ℚ) by push_cast; ring, Rat.den_intCast]

theorem isInt_rat_full (q : ℚ) :
    Cast.isInt (.num (.rat q))
      = (decide (q = ((ratTrunc q : ℤ) : ℚ)) && decide (|q| < 10 ^ 21)) := by
  by_cases hden : q.den = 1
  · have hz : ((q.num : ℤ) : ℚ) = q := (Rat.den_eq_one_iff q).mp hden
    rw [decide_eq_true ((ratTrunc_self_iff q).mpr hden), Bool.true_and]
    rcases lt_trichotomy q.num 0 with hneg | hzero | hpos
    · have hm' : (((-q.num).toNat : ℕ) : ℤ) = -q.num := Int.toNat_of_nonneg (by omega)
      have hmq : (((-q.num).toNat : ℕ) : ℚ) = -q := by
        rw [← hz]
        exact_mod_cast congrArg (fun z : ℤ => ((z : ℤ) : ℚ)) hm'
      have hq : q = -(((-q.num).toNat : ℕ) : ℚ) := by rw [hmq, neg_neg]
      have hq0 : q < 0 := by
        rw [← hz]
        exact_mod_cast hneg
      have habs : |q| = (((-q.num).toNat : ℕ) : ℚ) := by
        rw [abs_of_nonpos (le_of_lt hq0)]
        exact hmq.symm
      by_cases hlt : (-q.num).toNat < 10 ^ 21
      · rw [hq, isInt_neg_small _ (by omega) hlt]
        symm
        rw [decide_eq_true_iff, ← hq, habs]
        exact_mod_cast hlt
      · rw [hq, isInt_neg_big _ (by omega)]
        symm
        rw [decide_eq_false_iff_not, ← hq, habs]
        push_neg
        exact_mod_cast not_lt.mp hlt
    · have hq : q = 0 := by rw [← hz, hzero]; norm_num
      rw [hq]
      decide!
    · have hm' : ((q.num.toNat : ℕ) : ℤ) = q.num := Int.toNat_of_nonneg (by omega)
      have hq : q = ((q.num.toNat : ℕ) : ℚ) := by
        rw [← hz]
        exact_mod_cast (congrArg (fun z : ℤ => ((z : ℤ) : ℚ)) hm').symm
      have hq0 : 0 ≤ q := by
        rw [← hz]
        exact_mod_cast le_of_lt hpos
      have habs : |q| = ((q.num.toNat : ℕ) : ℚ) := by
        rw [abs_of_nonneg hq0]
        exact hq
      by_cases hlt : q.num.toNat < 10 ^ 21
      · rw [hq, isInt_nat_small _ (by omega) hlt]
        symm
        rw [decide_eq_true_iff, ← hq, habs]
        exact_mod_cast hlt
      · rw [hq, isInt_nat_big _ (by omega)]
        symm
        rw [decide_eq_false_iff_not, ← hq, habs]
        push_neg
        exact_mod_cast not_lt.mp hlt
  · rw [isInt_nonint q hden,
      decide_eq_false (fun he => hden ((ratTrunc_self_iff q).mp he)), Bool.false_and]

/-- C4 counterexample: the number `1e21` equals its own truncation toward zero,
yet `Cast.isInt` returns `false` for it (its string form is `"1e+21"`, which
`parseInt` reads back as `1`), refuting the claimed number rule. -/
theorem isInt_trunc_counterexample :
    Cast.isInt (.num (.rat ((10 : ℚ) ^ 21))) = false
      ∧ ((ratTrunc ((10 : ℚ) ^ 21) : ℤ) : ℚ) = (10 : ℚ) ^ 21 := by
  constructor
  · decide!
  · decide!

/-- C4 (amended): `isInt` returns, for numbers, `true` exactly when the number
is NaN or is an integer of magnitude below `1e21` (larger integers and
infinities stringify in exponential / `Infinity` form, which `parseInt` does
not read back); for booleans, always `true`; for strings, `true` exactly when
the string contains no `.` character (so `isInt("1e5") = true` and
`isInt("1.0") = false`); for `null` and `undefined`, `false`. -/
theorem isInt_amended_characterization :
    (∀ v : JsVal.Value, Cast.isInt v =
      (match v with
       | .num .nan => true
       | .num .posInf => false
       | .num .negInf => false
       | .num (.rat q) => decide (q = ((ratTrunc q : ℤ) : ℚ)) && decide (|q| < 10 ^ 21)
       | .bool _ => true
       | .str s => !(s.data.contains '.')
       | .null => false
       | .undef => false))
    ∧ Cast.isInt (.str "1e5") = true
    ∧ Cast.isInt (.str "1.0") = false
    ∧ Cast.isInt (.bool true) = true := by
  refine ⟨?_, by decide!, by decide!, rfl⟩
  intro v
  match v with
  | .num .nan => rfl
  | .num .posInf => decide!
  | .num .negInf => decide!
  | .num (.rat q) => exact isInt_rat_full q
  | .bool b => rfl
  | .str s => rfl
  | .null => rfl
  | .undef => rfl
